import Mathlib

/-
  Verification development for the hexlcc collaborative whiteboard.

  The repository has two source files:
  - server.js: a socket server holding the authoritative document
    (plus an embedded legacy copy of the client component), and
  - src/components/Whiteboard.jsx: the standalone client component.

  The server handlers receive structurally untrusted JSON-shaped payloads,
  so the server side is embedded over a small model of JavaScript values
  (JsValue below) with explicit property-access errors.  The client side
  manipulates well-formed data it builds itself, so it is embedded with
  typed records.  JavaScript numbers are modelled as rationals: the only
  numeric operations the verified code paths perform are comparison,
  minimum, absolute value of a difference and addition by small constants,
  all of which the rationals model faithfully for the stated properties.
-/

namespace Hexlcc

/-- Model of a JavaScript value as it appears in message payloads:
    undefined, null, booleans, numbers, strings, arrays and plain objects
    (a list of own enumerable properties in insertion order). -/
inductive JsValue where
  | undefined
  | null
  | bool (b : Bool)
  | num (q : ℚ)
  | str (s : String)
  | arr (elems : List JsValue)
  | obj (fields : List (String × JsValue))

/-- A thrown JavaScript error.  The verified code paths can only throw
    TypeError (property access on null or undefined, or calling a missing
    method such as map on a non-array). -/
inductive JsError where
  | typeError
deriving DecidableEq

/-- First own property with the given name, if present. -/
def lookupField : List (String × JsValue) → String → Option JsValue
  | [], _ => none
  | (k, v) :: fs, key => if k == key then some v else lookupField fs key

/-- Property read as a total function: missing properties read as undefined,
    and primitives have none of the (non-index) properties this code reads.
    Used by spec-side checkers; the embedded handlers use jsGet, which also
    raises the TypeError that null and undefined produce. -/
def jsField (v : JsValue) (key : String) : JsValue :=
  match v with
  | .obj fs => (lookupField fs key).getD .undefined
  | _ => .undefined

/-- Property read with JavaScript error behaviour: reading a property of
    null or undefined throws a TypeError; reading a missing property of an
    object, or any of the property names this code uses from a primitive
    or an array, yields undefined. -/
def jsGet (v : JsValue) (key : String) : Except JsError JsValue :=
  match v with
  | .undefined => .error .typeError
  | .null => .error .typeError
  | .obj fs => .ok ((lookupField fs key).getD .undefined)
  | _ => .ok .undefined

/-- Replace the value of an existing property, keeping its position, or
    append the property if absent (JavaScript object assignment). -/
def setField : List (String × JsValue) → String → JsValue → List (String × JsValue)
  | [], key, v => [(key, v)]
  | (k, w) :: fs, key, v => if k == key then (key, v) :: fs else (k, w) :: setField fs key v

/-- Property assignment in non-strict mode: updates objects; on primitives
    it is a silent no-op.  Every assignment in the source is preceded by a
    successful read of the same receiver, so the receiver is never null or
    undefined here; named properties added to arrays are not representable
    in this model and array receivers are left unchanged (no theorem in
    this file quantifies over array-valued shape records). -/
def jsSet (v : JsValue) (key : String) (w : JsValue) : JsValue :=
  match v with
  | .obj fs => .obj (setField fs key w)
  | other => other

/-- JavaScript truthiness: undefined, null, false, 0 and the empty string
    are falsy; every object and array (even empty) is truthy. -/
def truthy : JsValue → Bool
  | .undefined => false
  | .null => false
  | .bool b => b
  | .num q => !(q == 0)
  | .str s => !(s == "")
  | .arr _ => true
  | .obj _ => true

/-- Strict equality test against a string literal, the only strict-equality
    shape the server source uses apart from the undefined test. -/
def isStr (v : JsValue) (s : String) : Bool :=
  match v with
  | .str t => t == s
  | _ => false

/-- Strict equality test against undefined. -/
def isUndefined : JsValue → Bool
  | .undefined => true
  | _ => false

/-- Whether the value is null or undefined (property access throws). -/
def isNullish : JsValue → Bool
  | .undefined => true
  | .null => true
  | _ => false

/-- Whether the value is a plain (non-array) object. -/
def isObj : JsValue → Bool
  | .obj _ => true
  | _ => false

/-- Whether the value is an array (the Array.isArray test). -/
def isArr : JsValue → Bool
  | .arr _ => true
  | _ => false

/-- Effectful map over a list of values, stopping at the first thrown
    error, as the Array.prototype.map callback does. -/
def mapE (f : JsValue → Except JsError JsValue) : List JsValue → Except JsError (List JsValue)
  | [] => .ok []
  | x :: xs =>
    match f x with
    | .error e => .error e
    | .ok y =>
      match mapE f xs with
      | .error e => .error e
      | .ok ys => .ok (y :: ys)

/-- Object spread followed by one property, as in the page-copy expression
    of the server source.  Spreading null, undefined or a primitive
    contributes no own enumerable property; spreading an array would
    contribute only numeric-index keys, which no property name read by this
    code ever consults, so they are dropped by the model. -/
def jsSpreadSet (base : JsValue) (key : String) (v : JsValue) : JsValue :=
  match base with
  | .obj fs => .obj (setField fs key v)
  | _ => .obj [(key, v)]

end Hexlcc

namespace Hexlcc.Server

open Hexlcc

/-- Embedding of the first default-filling statement of the draw-update
    handler in server.js: if the shape has no truthy id, assign the string
    of the current time.  The timestamp is the parameter now. -/
def ensureId (now : Nat) (shape : JsValue) : Except JsError JsValue :=
  match jsGet shape "id" with
  | .error e => .error e
  | .ok idv => .ok (if truthy idv then shape else jsSet shape "id" (.str (Nat.repr now)))

/-- Embedding of the line-points default of the draw-update handler: if the
    type is the string line and points is falsy, assign an empty array.
    The points read is short-circuited exactly as in the source. -/
def ensureLinePoints (shape : JsValue) : Except JsError JsValue :=
  match jsGet shape "type" with
  | .error e => .error e
  | .ok tyv =>
    if isStr tyv "line" then
      match jsGet shape "points" with
      | .error e => .error e
      | .ok pv => .ok (if truthy pv then shape else jsSet shape "points" (.arr []))
    else
      .ok shape

/-- Embedding of one numeric default of the draw-update handler: if the
    named property is strictly undefined, assign the default. -/
def ensureNum (key : String) (dflt : ℚ) (shape : JsValue) : Except JsError JsValue :=
  match jsGet shape key with
  | .error e => .error e
  | .ok v => .ok (if isUndefined v then jsSet shape key (.num dflt) else shape)

/-- The per-shape body of the draw-update handler of server.js: fill a
    fresh id when the id is falsy, an empty points array for lines, and the
    numeric defaults x=0, y=0, width=10, height=10, strokeWidth=5. -/
def normShape (now : Nat) (shape : JsValue) : Except JsError JsValue :=
  match ensureId now shape with
  | .error e => .error e
  | .ok s1 =>
    match ensureLinePoints s1 with
    | .error e => .error e
    | .ok s2 =>
      match ensureNum "x" 0 s2 with
      | .error e => .error e
      | .ok s3 =>
        match ensureNum "y" 0 s3 with
        | .error e => .error e
        | .ok s4 =>
          match ensureNum "width" 10 s4 with
          | .error e => .error e
          | .ok s5 =>
            match ensureNum "height" 10 s5 with
            | .error e => .error e
            | .ok s6 => ensureNum "strokeWidth" 5 s6

/-- The per-page body of the draw-update handler of server.js: copy the
    page, replacing shapes by the mapped shapes when shapes is an array and
    by an empty array otherwise.  Reading the shapes property of a null or
    undefined page throws. -/
def normPage (now : Nat) (page : JsValue) : Except JsError JsValue :=
  match jsGet page "shapes" with
  | .error e => .error e
  | .ok (.arr ss) =>
    match mapE (normShape now) ss with
    | .error e => .error e
    | .ok ts => .ok (jsSpreadSet page "shapes" (.arr ts))
  | .ok _ => .ok (jsSpreadSet page "shapes" (.arr []))

/-- The pages map of the draw-update handler.  Calling map on a non-array
    (a string, number, boolean or plain object) throws a TypeError. -/
def processPages (now : Nat) (pagesv : JsValue) : Except JsError JsValue :=
  match pagesv with
  | .arr ps =>
    match mapE (normPage now) ps with
    | .error e => .error e
    | .ok qs => .ok (.arr qs)
  | _ => .error .typeError

/-- Events the connection handler of server.js reacts to. -/
inductive ServerEvent where
  | connect
  | drawUpdate (data : JsValue)
  | addPage (data : JsValue)
  | disconnect

/-- Network effects of one handler run: an emit on the connecting socket
    only, or an emit on the io object, which reaches every connected
    client including the sender. -/
inductive Effect where
  | emitSelf (event : String) (payload : JsValue)
  | emitAll (event : String) (payload : JsValue)

/-- The draw-update message payload built by the server. -/
def drawUpdateMsg (pages : JsValue) : JsValue := .obj [("pages", pages)]

/-- The socket handlers of server.js over the single authoritative state
    currentPages.  On connect the current state is emitted to the new
    socket only.  On draw-update, when the pages field is truthy, the pages
    are normalized, stored and broadcast to all clients; on add-page, when
    the pages field is truthy, the raw pages are stored and broadcast
    without normalization.  A falsy pages field leaves the state unchanged
    and emits nothing.  A thrown TypeError aborts the handler before the
    state assignment, also leaving the state unchanged with no emission. -/
def serverHandle (now : Nat) (currentPages : JsValue) :
    ServerEvent → Except JsError (JsValue × List Effect)
  | .connect => .ok (currentPages, [.emitSelf "draw-update" (drawUpdateMsg currentPages)])
  | .drawUpdate data =>
    match jsGet data "pages" with
    | .error e => .error e
    | .ok pv =>
      if truthy pv then
        match processPages now pv with
        | .error e => .error e
        | .ok processed => .ok (processed, [.emitAll "draw-update" (drawUpdateMsg processed)])
      else
        .ok (currentPages, [])
  | .addPage data =>
    match jsGet data "pages" with
    | .error e => .error e
    | .ok pv =>
      if truthy pv then
        .ok (pv, [.emitAll "draw-update" (drawUpdateMsg pv)])
      else
        .ok (currentPages, [])
  | .disconnect => .ok (currentPages, [])

/-- The initial value of currentPages in server.js. -/
def initialPages : JsValue :=
  .arr [.obj [("id", .num 1), ("lines", .arr []), ("shapes", .arr [])]]

/-- Clients that receive a given effect, given the connected clients and
    the socket the handler ran for. -/
def recipientsOf (connected : List Nat) (self : Nat) : Effect → List Nat
  | .emitSelf _ _ => [self]
  | .emitAll _ _ => connected

end Hexlcc.Server

namespace Hexlcc.Client

/-- A pointer position from getPointerPosition. -/
structure Pos where
  x : ℚ
  y : ℚ
deriving DecidableEq

/-- A freehand stroke record as built by the client components.  The field
    globalCompositeOperation is optional because the legacy client embedded
    in server.js builds strokes without it. -/
structure Stroke where
  tool : String
  points : List ℚ
  color : String
  strokeWidth : ℚ
  tension : ℚ
  lineCap : String
  lineJoin : String
  globalCompositeOperation : Option String
deriving DecidableEq

/-- A shape record as built by the client components for the line,
    rectangle and circle tools.  The points field is optional because the
    rectangle and circle replacement shapes built during pointer-move carry
    no points property. -/
structure Shape where
  id : String
  type : String
  color : String
  strokeWidth : ℚ
  x : ℚ
  y : ℚ
  width : ℚ
  height : ℚ
  points : Option (List ℚ)
deriving DecidableEq

/-- One page of the document: id, freehand strokes (called lines in the
    source) and shapes. -/
structure Page where
  id : Int
  lines : List Stroke
  shapes : List Shape
deriving DecidableEq

/-- The component state of a client: the local draft pages, the 1-based
    current page number, the active tool, the drawing flag, the drag start
    position and the selected colour and stroke width. -/
structure ClientState where
  pages : List Page
  currentPage : Int
  tool : String
  isDrawing : Bool
  startPos : Pos
  selectedColor : String
  selectedStrokeWidth : ℚ
deriving DecidableEq

/-- Map with element index, mirroring the two-argument callback form of
    Array.prototype.map used by the standalone client, with the running
    index starting at k. -/
def mapIdxFrom (f : Nat → α → α) (k : Nat) : List α → List α
  | [] => []
  | a :: as => f k a :: mapIdxFrom f (k + 1) as

/-- Map with element index starting at zero. -/
def jsMapWithIndex (f : Nat → α → α) (l : List α) : List α := mapIdxFrom f 0 l

/-- The id generated for a committed shape by the standalone client:
    the concatenation of the decimal time and the string form of a random
    number, as in the expression Date.now().toString() + Math.random(). -/
def jsFreshId (now : Nat) (rand : String) : String := Nat.repr now ++ rand

end Hexlcc.Client

namespace Hexlcc.Whiteboard

open Hexlcc.Client

/-- The pointer-down handler of the standalone Whiteboard.jsx client.  It
    records the drawing flag and start position, returns unchanged when the
    current page index is out of range, appends a new stroke with the
    pointer position duplicated for pen and eraser, and appends a temp
    shape of size zero for the line, rectangle and circle tools.  No
    message is emitted on pointer-down in this variant. -/
def handleMouseDown (st : ClientState) (pos : Pos) : ClientState :=
  let st := { st with isDrawing := true, startPos := pos }
  let cpi : Int := st.currentPage - 1
  if cpi < 0 ∨ (st.pages.length : Int) ≤ cpi then st
  else if st.tool == "pen" || st.tool == "eraser" then
    let newLine : Stroke :=
      { tool := st.tool
        points := [pos.x, pos.y, pos.x, pos.y]
        color := if st.tool == "eraser" then "#FFFFFF" else st.selectedColor
        strokeWidth := st.selectedStrokeWidth
        tension := 1/2
        lineCap := "round"
        lineJoin := "round"
        globalCompositeOperation :=
          some (if st.tool == "eraser" then "destination-out" else "source-over") }
    { st with pages := jsMapWithIndex (fun i page =>
        if (i : Int) = cpi then { page with lines := page.lines ++ [newLine] } else page) st.pages }
  else if st.tool == "line" || st.tool == "rectangle" || st.tool == "circle" then
    let tempShape : Shape :=
      { id := "temp", type := st.tool, color := st.selectedColor
        strokeWidth := st.selectedStrokeWidth
        x := pos.x, y := pos.y, width := 0, height := 0
        points := some [pos.x, pos.y, pos.x, pos.y] }
    { st with pages := jsMapWithIndex (fun i page =>
        if (i : Int) = cpi then { page with shapes := page.shapes ++ [tempShape] } else page) st.pages }
  else st

/-- The replacement temp shape built by the pointer-move handler of the
    standalone client: for the line tool a two-point segment with zero
    position and size, otherwise the axis-aligned box spanned by the start
    and current positions. -/
def moveTempShape (tool : String) (color : String) (sw : ℚ) (startPos pos : Pos) : Shape :=
  if tool == "line" then
    { id := "temp", type := tool, color := color, strokeWidth := sw
      points := some [startPos.x, startPos.y, pos.x, pos.y]
      x := 0, y := 0, width := 0, height := 0 }
  else
    { id := "temp", type := tool, color := color, strokeWidth := sw
      x := min startPos.x pos.x, y := min startPos.y pos.y
      width := |pos.x - startPos.x|, height := |pos.y - startPos.y|
      points := none }

/-- The pointer-move handler of the standalone client.  For pen and eraser
    it appends the position to the last stroke of the current page and
    emits the updated pages exactly when the resulting flattened point
    count is truthy and divisible by 16; for the shape tools it removes any
    existing temp shape and appends the replacement.  The second component
    collects the draw-update payloads emitted. -/
def handleMouseMove (st : ClientState) (pos : Pos) : ClientState × List (List Page) :=
  if !st.isDrawing then (st, [])
  else
    let cpi : Int := st.currentPage - 1
    if cpi < 0 ∨ (st.pages.length : Int) ≤ cpi then (st, [])
    else if st.tool == "pen" || st.tool == "eraser" then
      let updatedPages := jsMapWithIndex (fun i page =>
        if (i : Int) = cpi ∧ 0 < page.lines.length then
          match page.lines.getLast? with
          | some lastLine =>
            { page with lines := page.lines.dropLast ++
                [{ lastLine with points := lastLine.points ++ [pos.x, pos.y] }] }
          | none => page
        else page) st.pages
      let lastLineLength : Option Nat :=
        ((updatedPages[cpi.toNat]?).bind (fun pg => pg.lines.getLast?)).map
          (fun l => l.points.length)
      let emits := match lastLineLength with
        | some n => if n ≠ 0 ∧ n % 16 = 0 then [updatedPages] else []
        | none => []
      ({ st with pages := updatedPages }, emits)
    else if st.tool == "line" || st.tool == "rectangle" || st.tool == "circle" then
      let updatedPages := jsMapWithIndex (fun i page =>
        if (i : Int) = cpi then
          { page with shapes :=
              page.shapes.filter (fun s => !(s.id == "temp")) ++
                [moveTempShape st.tool st.selectedColor st.selectedStrokeWidth st.startPos pos] }
        else page) st.pages
      ({ st with pages := updatedPages }, [])
    else (st, [])

/-- The commit test of the pointer-up handler of the standalone client:
    the temp shape is finalized when its width or height is positive, or
    when it carries a points array of length at least four whose two
    endpoints differ. -/
def commitTest (s : Shape) : Bool :=
  decide (0 < s.width) || decide (0 < s.height) ||
    (match s.points with
     | some pts => decide (4 ≤ pts.length) && (decide (pts[0]! ≠ pts[2]!) || decide (pts[1]! ≠ pts[3]!))
     | none => false)

/-- The pointer-up handler of the standalone client.  It clears the
    drawing flag, returns unchanged when not drawing or out of range, and
    for the shape tools either promotes the temp shape to a permanent
    shape with the freshly generated id or removes it; the final pages are
    always emitted once. -/
def handleMouseUp (st : ClientState) (now : Nat) (rand : String) :
    ClientState × List (List Page) :=
  if !st.isDrawing then (st, [])
  else
    let st := { st with isDrawing := false }
    let cpi : Int := st.currentPage - 1
    if cpi < 0 ∨ (st.pages.length : Int) ≤ cpi then (st, [])
    else
      let finalPages :=
        if st.tool == "line" || st.tool == "rectangle" || st.tool == "circle" then
          jsMapWithIndex (fun i page =>
            if (i : Int) = cpi then
              match page.shapes.find? (fun s => s.id == "temp") with
              | some tempShape =>
                if commitTest tempShape then
                  { page with shapes :=
                      page.shapes.filter (fun s => !(s.id == "temp")) ++
                        [{ tempShape with id := jsFreshId now rand }] }
                else
                  { page with shapes := page.shapes.filter (fun s => !(s.id == "temp")) }
              | none => page
            else page) st.pages
        else st.pages
      ({ st with pages := finalPages }, [finalPages])

/-- The Add Page button of the standalone client: the new page id is one
    more than the maximum existing id (or 1 when there are no pages), the
    new page is appended with empty lines and shapes, the current page is
    set to the new id and the updated pages are emitted. -/
def addPageClick (st : ClientState) : ClientState × List (List Page) :=
  let newPageId : Int :=
    if 0 < st.pages.length then (st.pages.map (fun p => p.id)).foldl max ((st.pages.map (fun p => p.id)).headD 0) + 1
    else 1
  let newPage : Page := { id := newPageId, lines := [], shapes := [] }
  let updatedPages := st.pages ++ [newPage]
  ({ st with pages := updatedPages, currentPage := newPageId }, [updatedPages])

end Hexlcc.Whiteboard

namespace Hexlcc.LegacyClient

open Hexlcc.Client

/-- The pointer-down handler of the legacy client embedded in server.js.
    It records the drawing flag and start position; for pen and eraser it
    appends a new stroke with a single point pair to every page whose id
    equals the current page number and emits the updated pages at once.
    The line, rectangle and circle tools add nothing on pointer-down in
    this variant. -/
def handleMouseDown (st : ClientState) (pos : Pos) : ClientState × List (List Page) :=
  let st := { st with isDrawing := true, startPos := pos }
  if st.tool == "pen" || st.tool == "eraser" then
    let updatedPages := st.pages.map (fun page =>
      if page.id == st.currentPage then
        { page with lines := page.lines ++
            [{ tool := st.tool
               points := [pos.x, pos.y]
               color := st.selectedColor
               strokeWidth := st.selectedStrokeWidth
               tension := 1/5
               lineCap := "round"
               lineJoin := "round"
               globalCompositeOperation := none }] }
      else page)
    ({ st with pages := updatedPages }, [updatedPages])
  else (st, [])

/-- The replacement temp shape built by the pointer-move handler of the
    legacy client: a line keeps its two-point segment together with the
    spanned width and height, the other shapes the axis-aligned box. -/
def moveTempShape (tool : String) (color : String) (sw : ℚ) (startPos pos : Pos) : Shape :=
  if tool == "line" then
    { id := "temp", type := tool, color := color, strokeWidth := sw
      points := some [startPos.x, startPos.y, pos.x, pos.y]
      x := 0, y := 0
      width := |pos.x - startPos.x|, height := |pos.y - startPos.y| }
  else
    { id := "temp", type := tool, color := color, strokeWidth := sw
      x := min startPos.x pos.x, y := min startPos.y pos.y
      width := |pos.x - startPos.x|, height := |pos.y - startPos.y|
      points := none }

/-- The pointer-move handler of the legacy client.  For pen and eraser it
    appends the position to the last stroke of the page at index
    currentPage minus one and emits whenever the resulting flattened point
    count is divisible by 2; for the shape tools it replaces the temp shape
    and emits on every move.  An out-of-range page index, a TypeError in
    the source, is returned unchanged and is not relied on by any theorem
    below. -/
def handleMouseMove (st : ClientState) (pos : Pos) : ClientState × List (List Page) :=
  if !st.isDrawing then (st, [])
  else
    let cpi : Int := st.currentPage - 1
    if cpi < 0 ∨ (st.pages.length : Int) ≤ cpi then (st, [])
    else if st.tool == "pen" || st.tool == "eraser" then
      match st.pages[cpi.toNat]? with
      | none => (st, [])
      | some page =>
        match page.lines.getLast? with
        | none => (st, [])
        | some lastLine =>
          let updatedLine := { lastLine with points := lastLine.points ++ [pos.x, pos.y] }
          let updatedPages := st.pages.set cpi.toNat
            { page with lines := page.lines.dropLast ++ [updatedLine] }
          let emits := if updatedLine.points.length % 2 = 0 then [updatedPages] else []
          ({ st with pages := updatedPages }, emits)
    else if st.tool == "line" || st.tool == "rectangle" || st.tool == "circle" then
      match st.pages[cpi.toNat]? with
      | none => (st, [])
      | some page =>
        let updatedPages := st.pages.set cpi.toNat
          { page with shapes :=
              page.shapes.filter (fun s => !(s.id == "temp")) ++
                [moveTempShape st.tool st.selectedColor st.selectedStrokeWidth st.startPos pos] }
        ({ st with pages := updatedPages }, [updatedPages])
    else (st, [])

/-- The pointer-up handler of the legacy client.  It clears the drawing
    flag; handleDrawEnd first emits the current pages for pen and eraser.
    For the shape tools any existing temp shape is promoted with the
    decimal time as id, without an extent test, and the result is emitted;
    for pen and eraser the pages are emitted once more. -/
def handleMouseUp (st : ClientState) (now : Nat) : ClientState × List (List Page) :=
  let st := { st with isDrawing := false }
  let drawEndEmits := if st.tool == "pen" || st.tool == "eraser" then [st.pages] else []
  if st.tool == "line" || st.tool == "rectangle" || st.tool == "circle" then
    let cpi : Int := st.currentPage - 1
    if cpi < 0 ∨ (st.pages.length : Int) ≤ cpi then (st, drawEndEmits)
    else
      match st.pages[cpi.toNat]? with
      | none => (st, drawEndEmits)
      | some page =>
        match page.shapes.find? (fun s => s.id == "temp") with
        | some tempShape =>
          let updatedPages := st.pages.set cpi.toNat
            { page with shapes :=
                page.shapes.filter (fun s => !(s.id == "temp")) ++
                  [{ tempShape with id := Nat.repr now }] }
          ({ st with pages := updatedPages }, drawEndEmits ++ [updatedPages])
        | none => (st, drawEndEmits)
  else if st.tool == "pen" || st.tool == "eraser" then
    (st, drawEndEmits ++ [st.pages])
  else (st, drawEndEmits)

/-- The Add Page button of the legacy client: the new page id is the page
    count plus one, regardless of the existing ids, the current page is set
    to the new length, and the updated pages are emitted. -/
def addPageClick (st : ClientState) : ClientState × List (List Page) :=
  let newPage : Page := { id := (st.pages.length : Int) + 1, lines := [], shapes := [] }
  let updatedPages := st.pages ++ [newPage]
  ({ st with pages := updatedPages, currentPage := (updatedPages.length : Int) }, [updatedPages])

end Hexlcc.LegacyClient

namespace Hexlcc.Server

open Hexlcc

/-- Output guarantee of the Normalizer claimed by the spec: truthy id, the
    five numeric fields defined, and points defined for line shapes. -/
def shapeOutOk (s : JsValue) : Bool :=
  truthy (jsField s "id") &&
  !(isUndefined (jsField s "x")) && !(isUndefined (jsField s "y")) &&
  !(isUndefined (jsField s "width")) && !(isUndefined (jsField s "height")) &&
  !(isUndefined (jsField s "strokeWidth")) &&
  (!(isStr (jsField s "type") "line") || !(isUndefined (jsField s "points")))

/-- Every page of the Normalizer output must carry a shapes array whose
    elements satisfy shapeOutOk. -/
def pageOutOk (p : JsValue) : Bool :=
  match jsField p "shapes" with
  | .arr ss => ss.all shapeOutOk
  | _ => false

/-- Normalizer output guarantee over a whole pages value. -/
def docOk (d : JsValue) : Bool :=
  match d with
  | .arr ps => ps.all pageOutOk
  | _ => false

/-- Wire invariant claimed by the spec for broadcast documents: every
    shape record that is a plain object has the five numeric fields
    defined.  Values that are not plain objects are not shape records in
    the sense of the data model and are not constrained. -/
def wireShapeOk (s : JsValue) : Bool :=
  match s with
  | .obj _ =>
    !(isUndefined (jsField s "x")) && !(isUndefined (jsField s "y")) &&
    !(isUndefined (jsField s "width")) && !(isUndefined (jsField s "height")) &&
    !(isUndefined (jsField s "strokeWidth"))
  | _ => true

/-- Wire invariant for one page of a broadcast document. -/
def wirePageOk (p : JsValue) : Bool :=
  match jsField p "shapes" with
  | .arr ss => ss.all wireShapeOk
  | _ => false

/-- Wire invariant for a whole broadcast draw-update message. -/
def wireOk (m : JsValue) : Bool :=
  match jsField m "pages" with
  | .arr ps => ps.all wirePageOk
  | _ => false

/-- Decidable description of an already-normalized shape record: a plain
    object with a truthy id, truthy points when the type is line, and the
    five numeric fields defined.  On such a shape the Normalizer makes no
    change. -/
def normedShape (s : JsValue) : Bool :=
  isObj s && truthy (jsField s "id") &&
  (!(isStr (jsField s "type") "line") || truthy (jsField s "points")) &&
  !(isUndefined (jsField s "x")) && !(isUndefined (jsField s "y")) &&
  !(isUndefined (jsField s "width")) && !(isUndefined (jsField s "height")) &&
  !(isUndefined (jsField s "strokeWidth"))

/-- Already-normalized page: a plain object owning a shapes property that
    is an array of already-normalized shape records. -/
def normedPage (p : JsValue) : Bool :=
  match p with
  | .obj fs =>
    match lookupField fs "shapes" with
    | some (.arr ss) => ss.all normedShape
    | _ => false
  | _ => false

/-- Already-normalized pages value. -/
def normedDoc (d : JsValue) : Bool :=
  match d with
  | .arr ps => ps.all normedPage
  | _ => false

/-- Domain on which normalization is total: the pages value is an array,
    no page is null or undefined, and every element of an array-valued
    shapes property is a plain object. -/
def inputOk (pagesv : JsValue) : Bool :=
  match pagesv with
  | .arr ps => ps.all (fun p =>
      !(isNullish p) &&
      (match jsField p "shapes" with
       | .arr ss => ss.all isObj
       | _ => true))
  | _ => false

/-- A draw-update payload containing a null page: reading its shapes
    property throws a TypeError inside the Normalizer. -/
def nullPagePayload : JsValue := .obj [("pages", .arr [.null])]

/-- A shape record carrying only a type, as a legacy add-page message may
    deliver it: no id and no numeric fields. -/
def legacyAddPageShape : JsValue := .obj [("type", .str "rectangle")]

/-- Pages value of a legacy add-page message whose only shape lacks all
    numeric fields. -/
def legacyAddPagePages : JsValue :=
  .arr [.obj [("id", .num 1), ("lines", .arr []), ("shapes", .arr [legacyAddPageShape])]]

/-- The legacy add-page payload built from legacyAddPagePages. -/
def legacyAddPageData : JsValue := .obj [("pages", legacyAddPagePages)]

/-- A fully normalized shape record used as a concrete witness input. -/
def normedShapeEx : JsValue :=
  .obj [("id", .str "s1"), ("type", .str "rectangle"), ("x", .num 10), ("y", .num 10),
        ("width", .num 40), ("height", .num 30), ("strokeWidth", .num 5)]

/-- A fully normalized pages value used as a concrete witness input. -/
def normedPagesEx : JsValue :=
  .arr [.obj [("id", .num 1), ("lines", .arr []), ("shapes", .arr [normedShapeEx])]]

/-- A payload without any pages property, so the pages read yields
    undefined, which is falsy. -/
def noPagesData : JsValue := .obj [("other", .num 1)]

end Hexlcc.Server

namespace Hexlcc.Client

/-- The condition of the promotion claim, stated as in the specification:
    positive width or height, or a points array of length at least four
    whose endpoints differ. -/
def nonZeroExtent (s : Shape) : Prop :=
  0 < s.width ∨ 0 < s.height ∨
    (∃ pts, s.points = some pts ∧ 4 ≤ pts.length ∧ (pts[0]! ≠ pts[2]! ∨ pts[1]! ≠ pts[3]!))

/-- Number of shapes with the reserved id temp on the page the client is
    currently editing. -/
def tempCount (st : ClientState) : Nat :=
  match st.pages[(st.currentPage - 1).toNat]? with
  | some pg => (pg.shapes.filter (fun s => s.id == "temp")).length
  | none => 0

/-- An empty first page, as both clients initialize their state. -/
def blankPage : Page := { id := 1, lines := [], shapes := [] }

/-- A concrete base client state used by witnesses and counterexamples. -/
def baseState : ClientState :=
  { pages := [blankPage], currentPage := 1, tool := "pen", isDrawing := false,
    startPos := { x := 0, y := 0 }, selectedColor := "#000000", selectedStrokeWidth := 5 }

/-- A concrete state holding one in-progress stroke of one point pair, as
    the legacy client builds it on pointer-down at the origin. -/
def penMidState : ClientState :=
  { baseState with
    isDrawing := true
    pages := [{ id := 1
                lines := [{ tool := "pen", points := [0, 0], color := "#000000",
                            strokeWidth := 5, tension := 1/5, lineCap := "round",
                            lineJoin := "round", globalCompositeOperation := none }]
                shapes := [] }] }

/-- A concrete state whose single page has id 2, reachable by receiving a
    remote snapshot; used to separate the two page-id policies. -/
def pageTwoState : ClientState :=
  { baseState with pages := [{ id := 2, lines := [], shapes := [] }] }

end Hexlcc.Client

namespace Hexlcc.Whiteboard

open Hexlcc.Client

/-- State after a pointer-down and a sequence of pointer-moves of one
    gesture in the standalone client. -/
def gestureRun (st : ClientState) (pos0 : Pos) (moves : List Pos) : ClientState :=
  moves.foldl (fun s p => (handleMouseMove s p).1) (handleMouseDown st pos0)

/-- All intermediate states of a gesture in the standalone client: the
    state right after pointer-down followed by the state after each
    pointer-move. -/
def gestureStates (st : ClientState) (pos0 : Pos) (moves : List Pos) : List ClientState :=
  List.scanl (fun s p => (handleMouseMove s p).1) (handleMouseDown st pos0) moves

/-- Invariant of a shape-tool gesture in the standalone client: the tool,
    page number, start position, colour and width are those of the gesture,
    the drawing flag is set, the page count is unchanged, and the current
    page holds its original id, lines and shapes followed by exactly one
    trailing temp shape. -/
def previewInv (c : Int) (tl col : String) (sw : ℚ) (p0 : Pos) (L n : Nat)
    (pid : Int) (plines : List Stroke) (orig : List Shape)
    (s : ClientState) (t : Shape) : Prop :=
  s.currentPage = c ∧ s.tool = tl ∧ s.isDrawing = true ∧ s.startPos = p0 ∧
  s.selectedColor = col ∧ s.selectedStrokeWidth = sw ∧ s.pages.length = L ∧
  s.pages[n]? = some { id := pid, lines := plines, shapes := orig ++ [t] } ∧
  t.id = "temp"

end Hexlcc.Whiteboard

namespace Hexlcc.Client

/-- The concrete base state with the rectangle tool selected. -/
def rectToolState : ClientState := { baseState with tool := "rectangle" }

end Hexlcc.Client

namespace Hexlcc

theorem lookupField_setField_self (fs : List (String × JsValue)) (k : String) (v : JsValue) :
    lookupField (setField fs k v) k = some v := by
  induction fs with
  | nil => simp [setField, lookupField]
  | cons hd tl ih =>
    obtain ⟨k2, w⟩ := hd
    by_cases h : k2 = k
    · subst h
      simp [setField, lookupField]
    · simp [setField, lookupField, beq_iff_eq, h, ih]

theorem lookupField_setField_other (fs : List (String × JsValue)) (k k2 : String) (v : JsValue)
    (h : k ≠ k2) : lookupField (setField fs k2 v) k = lookupField fs k := by
  induction fs with
  | nil =>
    have hne : (k2 == k) = false := beq_eq_false_iff_ne.mpr (Ne.symm h)
    simp [setField, lookupField, hne]
  | cons hd tl ih =>
    obtain ⟨k3, w⟩ := hd
    by_cases h3 : k3 = k2
    · subst h3
      have hne : (k3 == k) = false := beq_eq_false_iff_ne.mpr (Ne.symm h)
      simp [setField, lookupField, hne]
    · have hne3 : (k3 == k2) = false := beq_eq_false_iff_ne.mpr h3
      simp [setField, lookupField, hne3, ih]

theorem setField_of_lookup_eq (fs : List (String × JsValue)) (k : String) (v : JsValue)
    (h : lookupField fs k = some v) : setField fs k v = fs := by
  induction fs with
  | nil => simp [lookupField] at h
  | cons hd tl ih =>
    obtain ⟨k2, w⟩ := hd
    by_cases h2 : k2 = k
    · subst h2
      simp [lookupField] at h
      simp [setField, h]
    · simp [lookupField, beq_iff_eq, h2] at h
      simp [setField, beq_iff_eq, h2, ih h]

theorem jsField_jsSet_self (fs : List (String × JsValue)) (k : String) (v : JsValue) :
    jsField (jsSet (.obj fs) k v) k = v := by
  simp [jsSet, jsField, lookupField_setField_self]

theorem jsField_jsSet_other (s : JsValue) (k k2 : String) (v : JsValue) (h : k ≠ k2) :
    jsField (jsSet s k2 v) k = jsField s k := by
  cases s <;> simp [jsSet, jsField]
  · exact congrArg (Option.getD · .undefined) (lookupField_setField_other _ _ _ _ h)

theorem isObj_jsSet (s : JsValue) (k : String) (v : JsValue) :
    isObj (jsSet s k v) = isObj s := by
  cases s <;> rfl

theorem isNullish_jsSet (s : JsValue) (k : String) (v : JsValue) :
    isNullish (jsSet s k v) = isNullish s := by
  cases s <;> rfl

theorem jsGet_of_not_nullish (s : JsValue) (k : String) (h : isNullish s = false) :
    jsGet s k = .ok (jsField s k) := by
  cases s <;> simp_all [isNullish, jsGet, jsField]

theorem jsField_of_not_obj (s : JsValue) (k : String) (h : isObj s = false) :
    jsField s k = .undefined := by
  cases s <;> simp_all [isObj, jsField]

theorem jsSet_of_not_obj (s : JsValue) (k : String) (v : JsValue) (h : isObj s = false) :
    jsSet s k v = s := by
  cases s <;> simp_all [isObj, jsSet]

theorem truthy_not_undef (v : JsValue) (h : truthy v = true) : isUndefined v = false := by
  cases v <;> simp_all [truthy, isUndefined]

theorem digitChar_isDigit (n : Nat) (h : n < 10) : (Nat.digitChar n).isDigit = true := by
  interval_cases n <;> decide

theorem toDigitsCore_succ_eq (fuel n : Nat) (ds : List Char) :
    Nat.toDigitsCore 10 (fuel + 1) n ds =
      if n / 10 = 0 then Nat.digitChar (n % 10) :: ds
      else Nat.toDigitsCore 10 fuel (n / 10) (Nat.digitChar (n % 10) :: ds) := rfl

theorem toDigitsCore_head_digit (fuel : Nat) :
    ∀ (n : Nat) (ds : List Char),
      ∃ c cs, Nat.toDigitsCore 10 (fuel + 1) n ds = c :: cs ∧ c.isDigit = true := by
  induction fuel with
  | zero =>
    intro n ds
    refine ⟨Nat.digitChar (n % 10), ds, ?_, digitChar_isDigit _ (Nat.mod_lt _ (by decide))⟩
    rw [toDigitsCore_succ_eq]
    by_cases h : n / 10 = 0
    · rw [if_pos h]
    · rw [if_neg h]
      rfl
  | succ fuel ih =>
    intro n ds
    by_cases h : n / 10 = 0
    · exact ⟨Nat.digitChar (n % 10), ds, by rw [toDigitsCore_succ_eq, if_pos h],
        digitChar_isDigit _ (Nat.mod_lt _ (by decide))⟩
    · obtain ⟨c, cs, heq, hc⟩ := ih (n / 10) (Nat.digitChar (n % 10) :: ds)
      exact ⟨c, cs, by rw [toDigitsCore_succ_eq, if_neg h]; exact heq, hc⟩

theorem repr_head_digit (n : Nat) :
    ∃ c cs, (Nat.repr n).data = c :: cs ∧ c.isDigit = true := by
  obtain ⟨c, cs, heq, hc⟩ := toDigitsCore_head_digit n n []
  exact ⟨c, cs, by simp [Nat.repr, Nat.toDigits, heq, List.asString], hc⟩

theorem nat_repr_ne_empty (n : Nat) : Nat.repr n ≠ "" := by
  obtain ⟨c, cs, heq, _⟩ := repr_head_digit n
  intro h
  rw [h] at heq
  simp [String.data] at heq

theorem truthy_repr (n : Nat) : truthy (.str (Nat.repr n)) = true := by
  simp [truthy, beq_iff_eq]
  exact nat_repr_ne_empty n

theorem jsFreshId_ne_temp (now : Nat) (rand : String) : Client.jsFreshId now rand ≠ "temp" := by
  obtain ⟨c, cs, heq, hc⟩ := repr_head_digit now
  intro h
  have hdata : (Client.jsFreshId now rand).data = "temp".data := by rw [h]
  rw [Client.jsFreshId, String.data_append, heq] at hdata
  have hchar : c = 't' := by
    have := List.head_eq_of_cons_eq hdata
    exact this
  rw [hchar] at hc
  simp [Char.isDigit] at hc

end Hexlcc

namespace Hexlcc.Server

open Hexlcc

theorem jsField_jsSpreadSet_self (p : JsValue) (key : String) (v : JsValue) :
    jsField (jsSpreadSet p key v) key = v := by
  cases p <;> simp [jsSpreadSet, jsField, lookupField_setField_self, lookupField]

theorem ensureId_obj (now : Nat) (s : JsValue) (h : isObj s = true) :
    ∃ t, ensureId now s = .ok t ∧ isObj t = true ∧ truthy (jsField t "id") = true ∧
      ∀ k, k ≠ "id" → jsField t k = jsField s k := by
  cases s with
  | obj fs =>
    by_cases ht : truthy (jsField (.obj fs) "id") = true
    · exact ⟨.obj fs, by simp [ensureId, jsGet, jsField] at ht ⊢; simp [ht], rfl, ht,
        fun k _ => rfl⟩
    · refine ⟨jsSet (.obj fs) "id" (.str (Nat.repr now)), ?_, ?_, ?_, ?_⟩
      · simp [ensureId, jsGet, jsField] at ht ⊢
        simp [ht]
      · rfl
      · rw [jsField_jsSet_self]
        exact truthy_repr now
      · exact fun k hk => jsField_jsSet_other _ k "id" _ hk
  | undefined => simp [isObj] at h
  | null => simp [isObj] at h
  | bool b => simp [isObj] at h
  | num q => simp [isObj] at h
  | str s => simp [isObj] at h
  | arr l => simp [isObj] at h

theorem ensureLinePoints_obj (s : JsValue) (h : isObj s = true) :
    ∃ t, ensureLinePoints s = .ok t ∧ isObj t = true ∧
      (∀ k, k ≠ "points" → jsField t k = jsField s k) ∧
      (isStr (jsField s "type") "line" = true → isUndefined (jsField t "points") = false) := by
  cases s with
  | obj fs =>
    by_cases hline : isStr (jsField (.obj fs) "type") "line" = true
    · by_cases hp : truthy (jsField (.obj fs) "points") = true
      · refine ⟨.obj fs, ?_, rfl, fun k _ => rfl, fun _ => truthy_not_undef _ hp⟩
        simp [ensureLinePoints, jsGet, jsField] at hline hp ⊢
        simp [hline, hp]
      · refine ⟨jsSet (.obj fs) "points" (.arr []), ?_, ?_, ?_, ?_⟩
        · simp [ensureLinePoints, jsGet, jsField] at hline hp ⊢
          simp [hline, hp]
        · rfl
        · exact fun k hk => jsField_jsSet_other _ k "points" _ hk
        · intro _
          rw [jsField_jsSet_self]
          rfl
    · refine ⟨.obj fs, ?_, rfl, fun k _ => rfl, fun hl => absurd hl hline⟩
      simp only [Bool.not_eq_true] at hline
      simp [ensureLinePoints, jsGet, jsField] at hline ⊢
      simp [hline]
  | undefined => simp [isObj] at h
  | null => simp [isObj] at h
  | bool b => simp [isObj] at h
  | num q => simp [isObj] at h
  | str s => simp [isObj] at h
  | arr l => simp [isObj] at h

theorem ensureNum_obj (key : String) (d : ℚ) (s : JsValue) (h : isObj s = true) :
    ∃ t, ensureNum key d s = .ok t ∧ isObj t = true ∧
      isUndefined (jsField t key) = false ∧
      ∀ k, k ≠ key → jsField t k = jsField s k := by
  cases s with
  | obj fs =>
    by_cases hu : isUndefined (jsField (.obj fs) key) = true
    · refine ⟨jsSet (.obj fs) key (.num d), ?_, ?_, ?_, ?_⟩
      · simp [ensureNum, jsGet, jsField] at hu ⊢
        simp [hu]
      · rfl
      · rw [jsField_jsSet_self]
        rfl
      · exact fun k hk => jsField_jsSet_other _ k key _ hk
    · simp only [Bool.not_eq_true] at hu
      refine ⟨.obj fs, ?_, rfl, hu, fun k _ => rfl⟩
      simp [ensureNum, jsGet, jsField] at hu ⊢
      simp [hu]
  | undefined => simp [isObj] at h
  | null => simp [isObj] at h
  | bool b => simp [isObj] at h
  | num q => simp [isObj] at h
  | str s => simp [isObj] at h
  | arr l => simp [isObj] at h

theorem normShape_obj (now : Nat) (s : JsValue) (h : isObj s = true) :
    ∃ t, normShape now s = .ok t ∧ isObj t = true ∧ shapeOutOk t = true := by
  obtain ⟨t1, he1, ho1, hid1, hpre1⟩ := ensureId_obj now s h
  obtain ⟨t2, he2, ho2, hpre2, hline2⟩ := ensureLinePoints_obj t1 ho1
  obtain ⟨t3, he3, ho3, hdef3, hpre3⟩ := ensureNum_obj "x" 0 t2 ho2
  obtain ⟨t4, he4, ho4, hdef4, hpre4⟩ := ensureNum_obj "y" 0 t3 ho3
  obtain ⟨t5, he5, ho5, hdef5, hpre5⟩ := ensureNum_obj "width" 10 t4 ho4
  obtain ⟨t6, he6, ho6, hdef6, hpre6⟩ := ensureNum_obj "height" 10 t5 ho5
  obtain ⟨t7, he7, ho7, hdef7, hpre7⟩ := ensureNum_obj "strokeWidth" 5 t6 ho6
  refine ⟨t7, ?_, ho7, ?_⟩
  · simp [normShape, he1, he2, he3, he4, he5, he6, he7]
  · have hid : jsField t7 "id" = jsField t1 "id" := by
      rw [hpre7 _ (by decide), hpre6 _ (by decide), hpre5 _ (by decide),
        hpre4 _ (by decide), hpre3 _ (by decide), hpre2 _ (by decide)]
    have hx : jsField t7 "x" = jsField t3 "x" := by
      rw [hpre7 _ (by decide), hpre6 _ (by decide), hpre5 _ (by decide), hpre4 _ (by decide)]
    have hy : jsField t7 "y" = jsField t4 "y" := by
      rw [hpre7 _ (by decide), hpre6 _ (by decide), hpre5 _ (by decide)]
    have hw : jsField t7 "width" = jsField t5 "width" := by
      rw [hpre7 _ (by decide), hpre6 _ (by decide)]
    have hh : jsField t7 "height" = jsField t6 "height" := by
      rw [hpre7 _ (by decide)]
    have hty : jsField t7 "type" = jsField t1 "type" := by
      rw [hpre7 _ (by decide), hpre6 _ (by decide), hpre5 _ (by decide),
        hpre4 _ (by decide), hpre3 _ (by decide), hpre2 _ (by decide)]
    have hpts : jsField t7 "points" = jsField t2 "points" := by
      rw [hpre7 _ (by decide), hpre6 _ (by decide), hpre5 _ (by decide),
        hpre4 _ (by decide), hpre3 _ (by decide)]
    simp only [shapeOutOk, Bool.and_eq_true, Bool.or_eq_true, Bool.not_eq_true']
    refine ⟨⟨⟨⟨⟨⟨?_, ?_⟩, ?_⟩, ?_⟩, ?_⟩, ?_⟩, ?_⟩
    · rw [hid]; exact hid1
    · rw [hx]; exact hdef3
    · rw [hy]; exact hdef4
    · rw [hw]; exact hdef5
    · rw [hh]; exact hdef6
    · exact hdef7
    · by_cases hl : isStr (jsField t7 "type") "line" = true
      · right
        rw [hpts]
        apply hline2
        rwa [hty] at hl
      · left
        simpa using hl

theorem isNullish_eq_false_of_obj (s : JsValue) (h : isObj s = true) : isNullish s = false := by
  cases s <;> simp_all [isObj, isNullish]

theorem ensureId_not_obj (now : Nat) (s : JsValue) (hn : isNullish s = false)
    (ho : isObj s = false) : ensureId now s = .ok s := by
  cases s <;> first | rfl | simp_all [isNullish, isObj]

theorem ensureLinePoints_not_obj (s : JsValue) (hn : isNullish s = false)
    (ho : isObj s = false) : ensureLinePoints s = .ok s := by
  cases s <;> first | rfl | simp_all [isNullish, isObj]

theorem ensureNum_not_obj (key : String) (d : ℚ) (s : JsValue) (hn : isNullish s = false)
    (ho : isObj s = false) : ensureNum key d s = .ok s := by
  cases s <;> first | rfl | simp_all [isNullish, isObj]

theorem normShape_not_obj (now : Nat) (s : JsValue) (hn : isNullish s = false)
    (ho : isObj s = false) : normShape now s = .ok s := by
  simp [normShape, ensureId_not_obj now s hn ho, ensureLinePoints_not_obj s hn ho,
    ensureNum_not_obj "x" 0 s hn ho, ensureNum_not_obj "y" 0 s hn ho,
    ensureNum_not_obj "width" 10 s hn ho, ensureNum_not_obj "height" 10 s hn ho,
    ensureNum_not_obj "strokeWidth" 5 s hn ho]

theorem normShape_nullish (now : Nat) (s : JsValue) (h : isNullish s = true) :
    normShape now s = .error .typeError := by
  cases s <;> first | rfl | simp [isNullish] at h

theorem ensureId_normed (now : Nat) (s : JsValue) (h : truthy (jsField s "id") = true) :
    ensureId now s = .ok s := by
  cases s <;> simp_all [ensureId, jsGet, jsField, truthy]

theorem ensureLinePoints_normed (s : JsValue) (hn : isNullish s = false)
    (h : isStr (jsField s "type") "line" = true → truthy (jsField s "points") = true) :
    ensureLinePoints s = .ok s := by
  cases s with
  | obj fs =>
    by_cases hline : isStr (jsField (.obj fs) "type") "line" = true
    · have hp := h hline
      simp [jsField] at hline hp
      simp [ensureLinePoints, jsGet, hline, hp]
    · simp only [Bool.not_eq_true] at hline
      simp [jsField] at hline
      simp [ensureLinePoints, jsGet, hline]
  | undefined => simp [isNullish] at hn
  | null => simp [isNullish] at hn
  | bool b => rfl
  | num q => rfl
  | str t => rfl
  | arr l => rfl

theorem ensureNum_normed (key : String) (d : ℚ) (s : JsValue) (hn : isNullish s = false)
    (h : isUndefined (jsField s key) = false) : ensureNum key d s = .ok s := by
  cases s with
  | obj fs =>
    simp [jsField] at h
    simp [ensureNum, jsGet, h]
  | undefined => simp [isNullish] at hn
  | null => simp [isNullish] at hn
  | bool b => rfl
  | num q => rfl
  | str t => rfl
  | arr l => rfl

theorem normShape_normed (now : Nat) (s : JsValue) (h : normedShape s = true) :
    normShape now s = .ok s := by
  simp only [normedShape, Bool.and_eq_true, Bool.or_eq_true, Bool.not_eq_true'] at h
  obtain ⟨⟨⟨⟨⟨⟨⟨hobj, hid⟩, hline⟩, hx⟩, hy⟩, hw⟩, hh⟩, hsw⟩ := h
  have hn : isNullish s = false := isNullish_eq_false_of_obj s hobj
  have himp : isStr (jsField s "type") "line" = true → truthy (jsField s "points") = true := by
    intro hl
    rcases hline with h1 | h2
    · rw [hl] at h1
      exact absurd h1 (by simp)
    · exact h2
  simp [normShape, ensureId_normed now s hid, ensureLinePoints_normed s hn himp,
    ensureNum_normed "x" 0 s hn hx, ensureNum_normed "y" 0 s hn hy,
    ensureNum_normed "width" 10 s hn hw, ensureNum_normed "height" 10 s hn hh,
    ensureNum_normed "strokeWidth" 5 s hn hsw]

theorem mapE_ok_of_forall (f : JsValue → Except JsError JsValue) (l : List JsValue)
    (h : ∀ x ∈ l, f x = .ok x) : mapE f l = .ok l := by
  induction l with
  | nil => rfl
  | cons a as ih =>
    simp [mapE, h a (List.mem_cons_self a as), ih fun x hx => h x (List.mem_cons_of_mem a hx)]

theorem mapE_exists (f : JsValue → Except JsError JsValue) (P : JsValue → Prop)
    (l : List JsValue) (h : ∀ x ∈ l, ∃ y, f x = .ok y ∧ P y) :
    ∃ l2, mapE f l = .ok l2 ∧ ∀ y ∈ l2, P y := by
  induction l with
  | nil => exact ⟨[], rfl, by simp⟩
  | cons a as ih =>
    obtain ⟨y, hy, hPy⟩ := h a (List.mem_cons_self a as)
    obtain ⟨l2, hl2, hP⟩ := ih fun x hx => h x (List.mem_cons_of_mem a hx)
    refine ⟨y :: l2, by simp [mapE, hy, hl2], ?_⟩
    intro z hz
    rcases List.mem_cons.mp hz with h1 | h2
    · exact h1 ▸ hPy
    · exact hP z h2

theorem mapE_forall_of_ok (f : JsValue → Except JsError JsValue) (P : JsValue → Prop)
    (hf : ∀ x y, f x = .ok y → P y) :
    ∀ (l l2 : List JsValue), mapE f l = .ok l2 → ∀ y ∈ l2, P y := by
  intro l
  induction l with
  | nil =>
    intro l2 h y hy
    simp only [mapE] at h
    injection h with h2
    subst h2
    simp at hy
  | cons a as ih =>
    intro l2 h y hy
    simp only [mapE] at h
    cases hfa : f a with
    | error e => rw [hfa] at h; exact absurd h (by simp)
    | ok b =>
      rw [hfa] at h
      cases hrest : mapE f as with
      | error e => rw [hrest] at h; exact absurd h (by simp)
      | ok bs =>
        rw [hrest] at h
        injection h with h2
        subst h2
        rcases List.mem_cons.mp hy with h1 | h2
        · exact h1 ▸ hf a b hfa
        · exact ih bs hrest y h2

theorem shapeOutOk_wire (t : JsValue) (h : shapeOutOk t = true) : wireShapeOk t = true := by
  cases t <;> simp_all [shapeOutOk, wireShapeOk, Bool.and_eq_true]

theorem normShape_wire (now : Nat) (s t : JsValue) (h : normShape now s = .ok t) :
    wireShapeOk t = true := by
  cases hnl : isNullish s with
  | true =>
    rw [normShape_nullish now s hnl] at h
    exact absurd h (by simp)
  | false =>
    cases hob : isObj s with
    | true =>
      obtain ⟨t2, ht2, _, hk⟩ := normShape_obj now s hob
      rw [ht2] at h
      injection h with h2
      exact shapeOutOk_wire t (h2 ▸ hk)
    | false =>
      rw [normShape_not_obj now s hnl hob] at h
      injection h with h2
      subst h2
      cases s <;> simp_all [wireShapeOk, isObj]

theorem normPage_ok_of_inputOk (now : Nat) (p : JsValue) (hn : isNullish p = false)
    (hs : ∀ ss, jsField p "shapes" = .arr ss → ∀ x ∈ ss, isObj x = true) :
    ∃ q, normPage now p = .ok q ∧ pageOutOk q = true := by
  have hget : jsGet p "shapes" = .ok (jsField p "shapes") := jsGet_of_not_nullish p _ hn
  cases hsh : jsField p "shapes" with
  | arr ss =>
    have hall : ∀ x ∈ ss, ∃ y, normShape now x = .ok y ∧ (isObj y = true ∧ shapeOutOk y = true) := by
      intro x hx
      obtain ⟨t, ht, ho, hk⟩ := normShape_obj now x (hs ss hsh x hx)
      exact ⟨t, ht, ho, hk⟩
    obtain ⟨ts, hts, hP⟩ := mapE_exists _ _ ss hall
    refine ⟨jsSpreadSet p "shapes" (.arr ts), ?_, ?_⟩
    · rw [hsh] at hget
      simp [normPage, hget, hts]
    · simp only [pageOutOk, jsField_jsSpreadSet_self]
      rw [List.all_eq_true]
      exact fun x hx => (hP x hx).2
  | undefined =>
    rw [hsh] at hget
    refine ⟨jsSpreadSet p "shapes" (.arr []), ?_, ?_⟩
    · simp [normPage, hget]
    · simp [pageOutOk, jsField_jsSpreadSet_self]
  | null =>
    rw [hsh] at hget
    refine ⟨jsSpreadSet p "shapes" (.arr []), ?_, ?_⟩
    · simp [normPage, hget]
    · simp [pageOutOk, jsField_jsSpreadSet_self]
  | bool b =>
    rw [hsh] at hget
    refine ⟨jsSpreadSet p "shapes" (.arr []), ?_, ?_⟩
    · simp [normPage, hget]
    · simp [pageOutOk, jsField_jsSpreadSet_self]
  | num q =>
    rw [hsh] at hget
    refine ⟨jsSpreadSet p "shapes" (.arr []), ?_, ?_⟩
    · simp [normPage, hget]
    · simp [pageOutOk, jsField_jsSpreadSet_self]
  | str t =>
    rw [hsh] at hget
    refine ⟨jsSpreadSet p "shapes" (.arr []), ?_, ?_⟩
    · simp [normPage, hget]
    · simp [pageOutOk, jsField_jsSpreadSet_self]
  | obj fs =>
    rw [hsh] at hget
    refine ⟨jsSpreadSet p "shapes" (.arr []), ?_, ?_⟩
    · simp [normPage, hget]
    · simp [pageOutOk, jsField_jsSpreadSet_self]

theorem normPage_wire (now : Nat) (p q : JsValue) (h : normPage now p = .ok q) :
    wirePageOk q = true := by
  cases hp : jsGet p "shapes" with
  | error e =>
    rw [normPage, hp] at h
    exact absurd h (by simp)
  | ok sh =>
    cases sh with
    | arr ss =>
      cases hm : mapE (normShape now) ss with
      | error e =>
        rw [normPage, hp] at h
        simp [hm] at h
      | ok ts =>
        rw [normPage, hp] at h
        simp only [hm] at h
        injection h with h2
        subst h2
        simp only [wirePageOk, jsField_jsSpreadSet_self]
        rw [List.all_eq_true]
        exact fun x hx => mapE_forall_of_ok _ (fun t => wireShapeOk t = true)
          (fun a b hab => normShape_wire now a b hab) ss ts hm x hx
    | undefined =>
      rw [normPage, hp] at h
      injection h with h2
      subst h2
      simp [wirePageOk, jsField_jsSpreadSet_self]
    | null =>
      rw [normPage, hp] at h
      injection h with h2
      subst h2
      simp [wirePageOk, jsField_jsSpreadSet_self]
    | bool b =>
      rw [normPage, hp] at h
      injection h with h2
      subst h2
      simp [wirePageOk, jsField_jsSpreadSet_self]
    | num q2 =>
      rw [normPage, hp] at h
      injection h with h2
      subst h2
      simp [wirePageOk, jsField_jsSpreadSet_self]
    | str t =>
      rw [normPage, hp] at h
      injection h with h2
      subst h2
      simp [wirePageOk, jsField_jsSpreadSet_self]
    | obj fs =>
      rw [normPage, hp] at h
      injection h with h2
      subst h2
      simp [wirePageOk, jsField_jsSpreadSet_self]

theorem normPage_normed (now : Nat) (p : JsValue) (h : normedPage p = true) :
    normPage now p = .ok p := by
  cases p with
  | obj fs =>
    simp only [normedPage] at h
    cases hlk : lookupField fs "shapes" with
    | none => rw [hlk] at h; exact absurd h (by simp)
    | some sh =>
      rw [hlk] at h
      cases sh with
      | arr ss =>
        rw [List.all_eq_true] at h
        have hmap : mapE (normShape now) ss = .ok ss :=
          mapE_ok_of_forall _ ss fun x hx => normShape_normed now x (h x hx)
        have hget : jsGet (.obj fs) "shapes" = .ok (.arr ss) := by simp [jsGet, hlk]
        rw [normPage, hget]
        simp only [hmap, jsSpreadSet]
        exact congrArg (fun l => Except.ok (JsValue.obj l))
          (setField_of_lookup_eq fs "shapes" (.arr ss) hlk)
      | undefined => exact absurd h (by simp)
      | null => exact absurd h (by simp)
      | bool b => exact absurd h (by simp)
      | num q => exact absurd h (by simp)
      | str t => exact absurd h (by simp)
      | obj gs => exact absurd h (by simp)
  | undefined => exact absurd h (by simp [normedPage])
  | null => exact absurd h (by simp [normedPage])
  | bool b => exact absurd h (by simp [normedPage])
  | num q => exact absurd h (by simp [normedPage])
  | str t => exact absurd h (by simp [normedPage])
  | arr l => exact absurd h (by simp [normedPage])

theorem processPages_ok_of_inputOk (now : Nat) (pv : JsValue) (h : inputOk pv = true) :
    ∃ d, processPages now pv = .ok d ∧ docOk d = true := by
  cases pv with
  | arr ps =>
    simp only [inputOk] at h
    rw [List.all_eq_true] at h
    have hall : ∀ p ∈ ps, ∃ q, normPage now p = .ok q ∧ pageOutOk q = true := by
      intro p hp
      have hcomp := h p hp
      simp only [Bool.and_eq_true, Bool.not_eq_true'] at hcomp
      obtain ⟨hn, hrest⟩ := hcomp
      apply normPage_ok_of_inputOk now p hn
      intro ss hss x hx
      rw [hss] at hrest
      rw [List.all_eq_true] at hrest
      exact hrest x hx
    obtain ⟨qs, hqs, hP⟩ := mapE_exists _ (fun q => pageOutOk q = true) ps hall
    refine ⟨.arr qs, by simp [processPages, hqs], ?_⟩
    simp only [docOk]
    rw [List.all_eq_true]
    exact hP
  | undefined => exact absurd h (by simp [inputOk])
  | null => exact absurd h (by simp [inputOk])
  | bool b => exact absurd h (by simp [inputOk])
  | num q => exact absurd h (by simp [inputOk])
  | str t => exact absurd h (by simp [inputOk])
  | obj fs => exact absurd h (by simp [inputOk])

theorem processPages_wire (now : Nat) (pv d : JsValue) (h : processPages now pv = .ok d) :
    wireOk (drawUpdateMsg d) = true := by
  cases pv with
  | arr ps =>
    cases hm : mapE (normPage now) ps with
    | error e =>
      rw [processPages] at h
      simp [hm] at h
    | ok qs =>
      rw [processPages] at h
      simp only [hm] at h
      injection h with h2
      subst h2
      have hfield : jsField (drawUpdateMsg (.arr qs)) "pages" = .arr qs := by
        simp [drawUpdateMsg, jsField, lookupField]
      simp only [wireOk, hfield]
      rw [List.all_eq_true]
      exact fun q hq => mapE_forall_of_ok _ (fun q => wirePageOk q = true)
        (fun a b hab => normPage_wire now a b hab) ps qs hm q hq
  | undefined => exact absurd h (by simp [processPages])
  | null => exact absurd h (by simp [processPages])
  | bool b => exact absurd h (by simp [processPages])
  | num q => exact absurd h (by simp [processPages])
  | str t => exact absurd h (by simp [processPages])
  | obj fs => exact absurd h (by simp [processPages])

theorem processPages_normed (now : Nat) (d : JsValue) (h : normedDoc d = true) :
    processPages now d = .ok d := by
  cases d with
  | arr ps =>
    simp only [normedDoc] at h
    rw [List.all_eq_true] at h
    have hmap : mapE (normPage now) ps = .ok ps :=
      mapE_ok_of_forall _ ps fun p hp => normPage_normed now p (h p hp)
    simp [processPages, hmap]
  | undefined => exact absurd h (by simp [normedDoc])
  | null => exact absurd h (by simp [normedDoc])
  | bool b => exact absurd h (by simp [normedDoc])
  | num q => exact absurd h (by simp [normedDoc])
  | str t => exact absurd h (by simp [normedDoc])
  | obj fs => exact absurd h (by simp [normedDoc])

end Hexlcc.Server

namespace Hexlcc.Server

open Hexlcc

/-- C1 counterexample: normalization is not total as claimed.  A
    draw-update payload whose pages array contains a null page makes the
    handler throw a TypeError when the Normalizer reads the shapes
    property of that page, so an error is raised and no normalized
    document is produced. -/
theorem C1_normalizer_throws_on_null_page :
    serverHandle 0 initialPages (.drawUpdate nullPagePayload) = .error .typeError := rfl

/-- C1 amended: normalization raises no error and yields a document in
    which every page has a shapes array and every shape has a truthy id,
    defined x, y, width, height and strokeWidth, and defined points when
    the type is line, for every draw-update payload whose pages value is
    an array of non-null, non-undefined pages in which every element of an
    array-valued shapes property is a plain object. -/
theorem C1_normalization_total_on_wellformed_records (now : Nat) (st data pv : JsValue)
    (hget : jsGet data "pages" = .ok pv) (hin : inputOk pv = true) :
    ∃ d, serverHandle now st (.drawUpdate data) =
        .ok (d, [.emitAll "draw-update" (drawUpdateMsg d)]) ∧
      docOk d = true := by
  have htr : truthy pv = true := by
    cases pv <;> simp_all [inputOk, truthy]
  obtain ⟨d, hd, hdoc⟩ := processPages_ok_of_inputOk now pv hin
  refine ⟨d, ?_, hdoc⟩
  simp [serverHandle, hget, htr, hd]

/-- Witness for the amended C1 theorem at a concrete payload. -/
theorem C1_normalization_total_on_wellformed_records_witness :
    jsGet (drawUpdateMsg normedPagesEx) "pages" = .ok normedPagesEx ∧
    inputOk normedPagesEx = true ∧
    ∃ d, serverHandle 0 initialPages (.drawUpdate (drawUpdateMsg normedPagesEx)) =
        .ok (d, [.emitAll "draw-update" (drawUpdateMsg d)]) ∧
      docOk d = true :=
  ⟨rfl, rfl,
    C1_normalization_total_on_wellformed_records 0 initialPages (drawUpdateMsg normedPagesEx)
      normedPagesEx rfl rfl⟩

/-- C2: on connect the Broadcast Coordinator emits the current snapshot to
    the connecting socket only; on a draw-update whose pages field is
    truthy and whose normalization succeeds, the store is replaced by the
    normalized document and one broadcast of exactly that document goes to
    every connected client, the sender included. -/
theorem C2_broadcast_coordinator (now : Nat) (st data pv d : JsValue)
    (connected : List Nat) (newcomer sender : Nat)
    (hget : jsGet data "pages" = .ok pv) (htr : truthy pv = true)
    (hnorm : processPages now pv = .ok d) :
    serverHandle now st .connect = .ok (st, [.emitSelf "draw-update" (drawUpdateMsg st)]) ∧
    recipientsOf connected newcomer (.emitSelf "draw-update" (drawUpdateMsg st)) = [newcomer] ∧
    serverHandle now st (.drawUpdate data) =
      .ok (d, [.emitAll "draw-update" (drawUpdateMsg d)]) ∧
    recipientsOf connected sender (.emitAll "draw-update" (drawUpdateMsg d)) = connected ∧
    (sender ∈ connected →
      sender ∈ recipientsOf connected sender (.emitAll "draw-update" (drawUpdateMsg d))) := by
  refine ⟨rfl, rfl, ?_, rfl, fun hm => by simpa [recipientsOf] using hm⟩
  simp [serverHandle, hget, htr, hnorm]

/-- Witness for C2 at a concrete payload and a two-client roster. -/
theorem C2_broadcast_coordinator_witness :
    serverHandle 0 initialPages .connect =
      .ok (initialPages, [.emitSelf "draw-update" (drawUpdateMsg initialPages)]) ∧
    recipientsOf [5, 7] 5 (.emitSelf "draw-update" (drawUpdateMsg initialPages)) = [5] ∧
    serverHandle 0 initialPages (.drawUpdate (drawUpdateMsg normedPagesEx)) =
      .ok (normedPagesEx, [.emitAll "draw-update" (drawUpdateMsg normedPagesEx)]) ∧
    recipientsOf [5, 7] 7 (.emitAll "draw-update" (drawUpdateMsg normedPagesEx)) = [5, 7] ∧
    (7 ∈ [5, 7] →
      7 ∈ recipientsOf [5, 7] 7 (.emitAll "draw-update" (drawUpdateMsg normedPagesEx))) :=
  C2_broadcast_coordinator 0 initialPages (drawUpdateMsg normedPagesEx) normedPagesEx
    normedPagesEx [5, 7] 5 7 rfl rfl rfl

/-- C3 counterexample: the wire invariant fails as claimed because the
    legacy add-page handler stores and rebroadcasts its payload without
    normalization: the broadcast document carries a shape object whose x
    (and the other numeric fields) is undefined. -/
theorem C3_addpage_broadcasts_undefined_numerics :
    serverHandle 0 initialPages (.addPage legacyAddPageData) =
      .ok (legacyAddPagePages, [.emitAll "draw-update" (drawUpdateMsg legacyAddPagePages)]) ∧
    wireOk (drawUpdateMsg legacyAddPagePages) = false ∧
    isUndefined (jsField legacyAddPageShape "x") = true :=
  ⟨rfl, rfl, rfl⟩

/-- C3 amended: every document broadcast in response to a draw-update
    message has no undefined numeric fields on any shape record that is a
    plain object; the add-page alias does not share this guarantee because
    it skips the Normalizer. -/
theorem C3_drawupdate_broadcasts_defined_numerics (now : Nat) (st data st2 : JsValue)
    (effs : List Effect) (ev : String) (m : JsValue)
    (h : serverHandle now st (.drawUpdate data) = .ok (st2, effs))
    (hmem : Effect.emitAll ev m ∈ effs) : wireOk m = true := by
  simp only [serverHandle] at h
  cases hget : jsGet data "pages" with
  | error e =>
    rw [hget] at h
    exact absurd h (by simp)
  | ok pv =>
    simp only [hget] at h
    by_cases htr : truthy pv = true
    · rw [if_pos htr] at h
      cases hp : processPages now pv with
      | error e =>
        rw [hp] at h
        exact absurd h (by simp)
      | ok d =>
        rw [hp] at h
        injection h with h2
        obtain ⟨h3, h4⟩ := Prod.mk.injEq .. ▸ h2
        subst h4
        simp only [List.mem_singleton] at hmem
        cases hmem
        exact processPages_wire now pv d hp
    · rw [if_neg htr] at h
      injection h with h2
      obtain ⟨h3, h4⟩ := Prod.mk.injEq .. ▸ h2
      subst h4
      simp at hmem

/-- Witness for the amended C3 theorem at a concrete draw-update. -/
theorem C3_drawupdate_broadcasts_defined_numerics_witness :
    wireOk (drawUpdateMsg normedPagesEx) = true :=
  C3_drawupdate_broadcasts_defined_numerics 0 initialPages (drawUpdateMsg normedPagesEx)
    normedPagesEx [.emitAll "draw-update" (drawUpdateMsg normedPagesEx)]
    "draw-update" (drawUpdateMsg normedPagesEx) rfl (List.mem_singleton.mpr rfl)

/-- C9: submitting the same already-normalized document twice in
    succession is idempotent: after each of the two submissions the store
    holds exactly the submitted pages, so the second submission leaves the
    observable state unchanged, for any pair of timestamps. -/
theorem C9_idempotent_replace (ts1 ts2 : Nat) (st d : JsValue) (h : normedDoc d = true) :
    serverHandle ts1 st (.drawUpdate (drawUpdateMsg d)) =
      .ok (d, [.emitAll "draw-update" (drawUpdateMsg d)]) ∧
    serverHandle ts2 d (.drawUpdate (drawUpdateMsg d)) =
      .ok (d, [.emitAll "draw-update" (drawUpdateMsg d)]) := by
  have htr : truthy d = true := by
    cases d <;> simp_all [normedDoc, truthy]
  have hget : jsGet (drawUpdateMsg d) "pages" = .ok d := by
    simp [drawUpdateMsg, jsGet, lookupField]
  exact ⟨by simp [serverHandle, hget, htr, processPages_normed ts1 d h],
    by simp [serverHandle, hget, htr, processPages_normed ts2 d h]⟩

/-- Witness for C9 at a concrete normalized document and two distinct
    timestamps. -/
theorem C9_idempotent_replace_witness :
    serverHandle 3 initialPages (.drawUpdate (drawUpdateMsg normedPagesEx)) =
      .ok (normedPagesEx, [.emitAll "draw-update" (drawUpdateMsg normedPagesEx)]) ∧
    serverHandle 4 normedPagesEx (.drawUpdate (drawUpdateMsg normedPagesEx)) =
      .ok (normedPagesEx, [.emitAll "draw-update" (drawUpdateMsg normedPagesEx)]) :=
  C9_idempotent_replace 3 4 initialPages normedPagesEx rfl

/-- C10: a draw-update or add-page payload whose pages property reads as
    a falsy value is silently ignored: the store keeps its previous value
    and no message is emitted to any client. -/
theorem C10_falsy_pages_ignored (now : Nat) (st data pv : JsValue)
    (hget : jsGet data "pages" = .ok pv) (hf : truthy pv = false) :
    serverHandle now st (.drawUpdate data) = .ok (st, []) ∧
    serverHandle now st (.addPage data) = .ok (st, []) :=
  ⟨by simp [serverHandle, hget, hf], by simp [serverHandle, hget, hf]⟩

/-- Witness for C10 at a payload without a pages property. -/
theorem C10_falsy_pages_ignored_witness :
    serverHandle 0 initialPages (.drawUpdate noPagesData) = .ok (initialPages, []) ∧
    serverHandle 0 initialPages (.addPage noPagesData) = .ok (initialPages, []) :=
  C10_falsy_pages_ignored 0 initialPages noPagesData .undefined rfl rfl

end Hexlcc.Server

namespace Hexlcc.Client

theorem mapIdxFrom_length {α} (f : Nat → α → α) (k : Nat) (l : List α) :
    (mapIdxFrom f k l).length = l.length := by
  induction l generalizing k with
  | nil => rfl
  | cons a as ih => simp [mapIdxFrom, ih]

theorem mapIdxFrom_getElem? {α} (f : Nat → α → α) (k : Nat) (l : List α) (i : Nat) :
    (mapIdxFrom f k l)[i]? = (l[i]?).map (f (k + i)) := by
  induction l generalizing k i with
  | nil => simp [mapIdxFrom]
  | cons a as ih =>
    cases i with
    | zero => simp [mapIdxFrom]
    | succ j =>
      simp only [mapIdxFrom, List.getElem?_cons_succ]
      have heq : k + (j + 1) = k + 1 + j := by omega
      rw [heq]
      exact ih (k + 1) j

theorem jsMapWithIndex_length {α} (f : Nat → α → α) (l : List α) :
    (jsMapWithIndex f l).length = l.length := mapIdxFrom_length f 0 l

theorem jsMapWithIndex_getElem? {α} (f : Nat → α → α) (l : List α) (i : Nat) :
    (jsMapWithIndex f l)[i]? = (l[i]?).map (f i) := by
  simpa using mapIdxFrom_getElem? f 0 l i

theorem filter_no_temp (l : List Shape) (h : ∀ s ∈ l, s.id ≠ "temp") :
    l.filter (fun s => !(s.id == "temp")) = l := by
  rw [List.filter_eq_self]
  intro a ha
  simp [h a ha]

theorem filter_temp_of_no_temp (l : List Shape) (h : ∀ s ∈ l, s.id ≠ "temp") :
    l.filter (fun s => s.id == "temp") = [] := by
  rw [List.filter_eq_nil_iff]
  intro a ha
  simp [h a ha]

theorem find_temp_append (l : List Shape) (t : Shape) (h : ∀ s ∈ l, s.id ≠ "temp")
    (ht : t.id = "temp") :
    (l ++ [t]).find? (fun s => s.id == "temp") = some t := by
  induction l with
  | nil => simp [List.find?, ht]
  | cons a as ih =>
    have ha := h a (List.mem_cons_self a as)
    simp only [List.cons_append, List.find?]
    have : (a.id == "temp") = false := by simp [ha]
    rw [this]
    exact ih fun s hs => h s (List.mem_cons_of_mem a hs)

theorem foldl_const_getLast {α β} (g : α → β) :
    ∀ (l : List α) (t : β) (p : α), l.getLast? = some p →
      l.foldl (fun _ q => g q) t = g p := by
  intro l
  induction l with
  | nil =>
    intro t p h
    simp at h
  | cons a l2 ih =>
    intro t p h
    cases l2 with
    | nil =>
      simp at h
      subst h
      rfl
    | cons b l3 =>
      rw [List.foldl_cons]
      exact ih (g a) p (by rw [← h, List.getLast?_cons_cons])

end Hexlcc.Client

namespace Hexlcc.Whiteboard

open Hexlcc.Client

theorem moveTempShape_id (tl col : String) (sw : ℚ) (p0 p : Pos) :
    (moveTempShape tl col sw p0 p).id = "temp" := by
  rw [moveTempShape]
  split <;> rfl

theorem handleMouseMove_shape_fst (s : ClientState) (p : Pos) (n : Nat)
    (hdraw : s.isDrawing = true)
    (htool : s.tool = "line" ∨ s.tool = "rectangle" ∨ s.tool = "circle")
    (hcp : s.currentPage - 1 = (n : Int)) (hn : n < s.pages.length) :
    (handleMouseMove s p).1 = { s with pages := (jsMapWithIndex (fun i page =>
        if (i : Int) = s.currentPage - 1 then
          { page with shapes := page.shapes.filter (fun x => !(x.id == "temp")) ++
              [moveTempShape s.tool s.selectedColor s.selectedStrokeWidth s.startPos p] }
        else page) s.pages) } := by
  have hb2 : ¬(s.currentPage < 1 ∨ (s.pages.length : Int) ≤ s.currentPage - 1) := by
    omega
  have hpen : (s.tool == "pen" || s.tool == "eraser") = false := by
    rcases htool with h | h | h <;> rw [h] <;> rfl
  have hshape : (s.tool == "line" || s.tool == "rectangle" || s.tool == "circle") = true := by
    rcases htool with h | h | h <;> rw [h] <;> rfl
  simp [handleMouseMove, hdraw, hpen, hshape, hb2]

theorem handleMouseDown_shape_inv (s : ClientState) (p0 : Pos) (n : Nat) (pg : Page)
    (htool : s.tool = "line" ∨ s.tool = "rectangle" ∨ s.tool = "circle")
    (hcp : s.currentPage - 1 = (n : Int)) (hn : n < s.pages.length)
    (hpg : s.pages[n]? = some pg) :
    previewInv s.currentPage s.tool s.selectedColor s.selectedStrokeWidth p0
      s.pages.length n pg.id pg.lines pg.shapes (handleMouseDown s p0)
      { id := "temp", type := s.tool, color := s.selectedColor, strokeWidth := s.selectedStrokeWidth, x := p0.x, y := p0.y, width := 0, height := 0, points := some [p0.x, p0.y, p0.x, p0.y] } := by
  have hb2 : ¬(s.currentPage < 1 ∨ (s.pages.length : Int) ≤ s.currentPage - 1) := by
    omega
  have hpen : (s.tool == "pen" || s.tool == "eraser") = false := by
    rcases htool with h | h | h <;> rw [h] <;> rfl
  have hshape : (s.tool == "line" || s.tool == "rectangle" || s.tool == "circle") = true := by
    rcases htool with h | h | h <;> rw [h] <;> rfl
  have hdown : handleMouseDown s p0 =
      { s with
        isDrawing := true,
        startPos := p0,
        pages := (jsMapWithIndex (fun i page =>
          if (i : Int) = s.currentPage - 1 then
            { page with shapes := page.shapes ++
                [{ id := "temp", type := s.tool, color := s.selectedColor, strokeWidth := s.selectedStrokeWidth, x := p0.x, y := p0.y, width := 0, height := 0, points := some [p0.x, p0.y, p0.x, p0.y] }] }
          else page) s.pages) } := by
    simp [handleMouseDown, hpen, hshape, hb2]
  rw [hdown]
  refine ⟨rfl, rfl, rfl, rfl, rfl, rfl, ?_, ?_, rfl⟩
  · simp [jsMapWithIndex_length]
  · simp only [jsMapWithIndex_getElem?, hpg, Option.map_some']
    simp [hcp]

theorem previewInv_move {c : Int} {tl col : String} {sw : ℚ} {p0 : Pos} {L n : Nat}
    {pid : Int} {plines : List Stroke} {orig : List Shape} {s : ClientState} {t : Shape}
    (htool : tl = "line" ∨ tl = "rectangle" ∨ tl = "circle")
    (hcp : c - 1 = (n : Int)) (hn : n < L)
    (hfree : ∀ x ∈ orig, x.id ≠ "temp")
    (hinv : previewInv c tl col sw p0 L n pid plines orig s t) (p : Pos) :
    previewInv c tl col sw p0 L n pid plines orig
      ((handleMouseMove s p).1) (moveTempShape tl col sw p0 p) := by
  obtain ⟨h1, h2, h3, h4, h5, h6, h7, h8, h9⟩ := hinv
  rw [handleMouseMove_shape_fst s p n h3 (h2 ▸ htool) (by rw [h1, hcp])
    (by rw [h7]; exact hn)]
  have hifc : ((n : Int) = s.currentPage - 1) := by rw [h1, hcp]
  have hfilter : (orig ++ [t]).filter (fun x => !(x.id == "temp")) = orig := by
    rw [List.filter_append, filter_no_temp orig hfree]
    simp [h9]
  refine ⟨h1, h2, h3, h4, h5, h6, ?_, ?_, moveTempShape_id tl col sw p0 p⟩
  · simp [jsMapWithIndex_length, h7]
  · simp only [jsMapWithIndex_getElem?, h8, Option.map_some']
    rw [if_pos hifc]
    rw [h2, h4, h5, h6]
    simp [hfilter]

theorem previewInv_fold {c : Int} {tl col : String} {sw : ℚ} {p0 : Pos} {L n : Nat}
    {pid : Int} {plines : List Stroke} {orig : List Shape}
    (htool : tl = "line" ∨ tl = "rectangle" ∨ tl = "circle")
    (hcp : c - 1 = (n : Int)) (hn : n < L)
    (hfree : ∀ x ∈ orig, x.id ≠ "temp") :
    ∀ (moves : List Pos) (s : ClientState) (t : Shape),
      previewInv c tl col sw p0 L n pid plines orig s t →
      previewInv c tl col sw p0 L n pid plines orig
        (moves.foldl (fun s2 p => (handleMouseMove s2 p).1) s)
        (moves.foldl (fun _ p => moveTempShape tl col sw p0 p) t) := by
  intro moves
  induction moves with
  | nil => exact fun s t h => h
  | cons p ps ih =>
    intro s t h
    simp only [List.foldl_cons]
    exact ih _ _ (previewInv_move htool hcp hn hfree h p)

theorem previewInv_scanl {c : Int} {tl col : String} {sw : ℚ} {p0 : Pos} {L n : Nat}
    {pid : Int} {plines : List Stroke} {orig : List Shape}
    (htool : tl = "line" ∨ tl = "rectangle" ∨ tl = "circle")
    (hcp : c - 1 = (n : Int)) (hn : n < L)
    (hfree : ∀ x ∈ orig, x.id ≠ "temp") :
    ∀ (moves : List Pos) (s : ClientState) (t : Shape),
      previewInv c tl col sw p0 L n pid plines orig s t →
      ∀ x ∈ List.scanl (fun s2 p => (handleMouseMove s2 p).1) s moves,
        ∃ t2, previewInv c tl col sw p0 L n pid plines orig x t2 := by
  intro moves
  induction moves with
  | nil =>
    intro s t h x hx
    rw [List.scanl_nil] at hx
    simp at hx
    exact hx ▸ ⟨t, h⟩
  | cons p ps ih =>
    intro s t h x hx
    rw [List.scanl_cons] at hx
    rcases List.mem_append.mp hx with h1 | h2
    · simp at h1
      exact h1 ▸ ⟨t, h⟩
    · exact ih _ _ (previewInv_move htool hcp hn hfree h p) x h2

end Hexlcc.Whiteboard

namespace Hexlcc.Whiteboard

open Hexlcc.Client

theorem handleMouseUp_of_inv {c : Int} {tl col : String} {sw : ℚ} {p0 : Pos} {L n : Nat}
    {pid : Int} {plines : List Stroke} {orig : List Shape} {s : ClientState} {t : Shape}
    (htool : tl = "line" ∨ tl = "rectangle" ∨ tl = "circle")
    (hcp : c - 1 = (n : Int)) (hn : n < L)
    (hfree : ∀ x ∈ orig, x.id ≠ "temp")
    (hinv : previewInv c tl col sw p0 L n pid plines orig s t) (now : Nat) (rand : String) :
    ((handleMouseUp s now rand).1.pages[n]?).map Page.shapes =
      some (if commitTest t then orig ++ [{ t with id := jsFreshId now rand }] else orig) := by
  obtain ⟨h1, h2, h3, h4, h5, h6, h7, h8, h9⟩ := hinv
  have hb2 : ¬(s.currentPage < 1 ∨ (s.pages.length : Int) ≤ s.currentPage - 1) := by
    omega
  have hshape : (s.tool == "line" || s.tool == "rectangle" || s.tool == "circle") = true := by
    rcases htool with h | h | h <;> rw [h2, h] <;> rfl
  have hifc : ((n : Int) = s.currentPage - 1) := by rw [h1, hcp]
  have hfind : (orig ++ [t]).find? (fun x => x.id == "temp") = some t :=
    find_temp_append orig t hfree h9
  have hfilter : (orig ++ [t]).filter (fun x => !(x.id == "temp")) = orig := by
    rw [List.filter_append, filter_no_temp orig hfree]
    simp [h9]
  by_cases hct : commitTest t = true
  · simp [handleMouseUp, h3, hb2, hshape, jsMapWithIndex_getElem?, h8, hifc, hfind,
      hfilter, hct]
  · simp only [Bool.not_eq_true] at hct
    simp [handleMouseUp, h3, hb2, hshape, jsMapWithIndex_getElem?, h8, hifc, hfind,
      hfilter, hct]

end Hexlcc.Whiteboard

namespace Hexlcc.Whiteboard

open Hexlcc.Client
open Hexlcc

/-- C4 amended: in the standalone client, ending a shape-tool gesture
    promotes the temp shape to a permanent shape with the freshly
    generated id, distinct from temp, exactly when the gesture has
    non-zero extent, that is when the final pointer position differs from
    the start; a click with no drag, or a drag ending at its start point,
    leaves the page without any new shape. -/
theorem C4_promotion_iff_nonzero_extent (st : ClientState) (pos0 : Pos) (moves : List Pos)
    (now : Nat) (rand : String) (n : Nat) (pg : Page)
    (htool : st.tool = "line" ∨ st.tool = "rectangle" ∨ st.tool = "circle")
    (hcp : st.currentPage - 1 = (n : Int)) (hn : n < st.pages.length)
    (hpg : st.pages[n]? = some pg) (hfree : ∀ x ∈ pg.shapes, x.id ≠ "temp") :
    (moves = [] →
      ((handleMouseUp (gestureRun st pos0 moves) now rand).1.pages[n]?).map Page.shapes =
        some pg.shapes) ∧
    (∀ p, moves.getLast? = some p → p = pos0 →
      ((handleMouseUp (gestureRun st pos0 moves) now rand).1.pages[n]?).map Page.shapes =
        some pg.shapes) ∧
    (∀ p, moves.getLast? = some p → p ≠ pos0 →
      ∃ sh, ((handleMouseUp (gestureRun st pos0 moves) now rand).1.pages[n]?).map Page.shapes =
          some (pg.shapes ++ [sh]) ∧
        sh.id = jsFreshId now rand ∧ sh.id ≠ "temp" ∧ nonZeroExtent sh) := by
  obtain ⟨x0, y0⟩ := pos0
  have hd := handleMouseDown_shape_inv st ⟨x0, y0⟩ n pg htool hcp hn hpg
  refine ⟨?_, ?_, ?_⟩
  · rintro rfl
    have hup := handleMouseUp_of_inv htool hcp hn hfree hd now rand
    have hct : commitTest { id := "temp", type := st.tool, color := st.selectedColor, strokeWidth := st.selectedStrokeWidth, x := x0, y := y0, width := 0, height := 0, points := some [x0, y0, x0, y0] } = false := by
      simp [commitTest]
    rw [hct] at hup
    rw [if_neg (by simp)] at hup
    exact hup
  · rintro p hlast rfl
    have hfold := previewInv_fold htool hcp hn hfree moves _ _ hd
    rw [foldl_const_getLast
      (fun q => moveTempShape st.tool st.selectedColor st.selectedStrokeWidth ⟨x0, y0⟩ q)
      moves _ _ hlast] at hfold
    have hup := handleMouseUp_of_inv htool hcp hn hfree hfold now rand
    have hct : commitTest
        (moveTempShape st.tool st.selectedColor st.selectedStrokeWidth ⟨x0, y0⟩ ⟨x0, y0⟩) =
        false := by
      rcases htool with h | h | h <;> simp [moveTempShape, h, commitTest]
    rw [hct] at hup
    rw [if_neg (by simp)] at hup
    exact hup
  · intro p hlast hpne
    obtain ⟨px, py⟩ := p
    have hne : px ≠ x0 ∨ py ≠ y0 := by
      by_contra hcon
      push_neg at hcon
      exact hpne (by rw [hcon.1, hcon.2])
    have hfold := previewInv_fold htool hcp hn hfree moves _ _ hd
    rw [foldl_const_getLast
      (fun q => moveTempShape st.tool st.selectedColor st.selectedStrokeWidth ⟨x0, y0⟩ q)
      moves _ _ hlast] at hfold
    have hup := handleMouseUp_of_inv htool hcp hn hfree hfold now rand
    have hct : commitTest
        (moveTempShape st.tool st.selectedColor st.selectedStrokeWidth ⟨x0, y0⟩ ⟨px, py⟩) =
        true := by
      rcases htool with h | h | h <;> rcases hne with h2 | h2 <;>
        simp [moveTempShape, h, commitTest, abs_pos, sub_ne_zero, h2, h2.symm]
    rw [hct] at hup
    rw [if_pos rfl] at hup
    refine ⟨{ moveTempShape st.tool st.selectedColor st.selectedStrokeWidth ⟨x0, y0⟩ ⟨px, py⟩
        with id := jsFreshId now rand }, hup, rfl, jsFreshId_ne_temp now rand, ?_⟩
    rcases htool with h | h | h <;> rcases hne with h2 | h2
    · exact Or.inr (Or.inr ⟨[x0, y0, px, py], by simp [moveTempShape, h], by simp,
        Or.inl (by simpa using fun e => h2 e.symm)⟩)
    · exact Or.inr (Or.inr ⟨[x0, y0, px, py], by simp [moveTempShape, h], by simp,
        Or.inr (by simpa using fun e => h2 e.symm)⟩)
    · exact Or.inl (by simp [moveTempShape, h, abs_pos, sub_ne_zero, h2])
    · exact Or.inr (Or.inl (by simp [moveTempShape, h, abs_pos, sub_ne_zero, h2]))
    · exact Or.inl (by simp [moveTempShape, h, abs_pos, sub_ne_zero, h2])
    · exact Or.inr (Or.inl (by simp [moveTempShape, h, abs_pos, sub_ne_zero, h2]))

end Hexlcc.Whiteboard

namespace Hexlcc.Whiteboard

open Hexlcc.Client

/-- C6: during a shape-tool gesture started on a page that carries no
    temp shape, the current page holds at most one shape with id temp in
    every intermediate state, that is after the pointer-down and after
    each pointer-move: the move handler replaces the existing temp shape
    instead of appending another one. -/
theorem C6_at_most_one_temp_shape (st : ClientState) (pos0 : Pos) (moves : List Pos)
    (n : Nat) (pg : Page)
    (htool : st.tool = "line" ∨ st.tool = "rectangle" ∨ st.tool = "circle")
    (hcp : st.currentPage - 1 = (n : Int)) (hn : n < st.pages.length)
    (hpg : st.pages[n]? = some pg) (hfree : ∀ x ∈ pg.shapes, x.id ≠ "temp") :
    ∀ x ∈ gestureStates st pos0 moves, tempCount x ≤ 1 := by
  intro x hx
  have hd := handleMouseDown_shape_inv st pos0 n pg htool hcp hn hpg
  simp only [gestureStates] at hx
  obtain ⟨t2, hinv⟩ := previewInv_scanl htool hcp hn hfree moves _ _ hd x hx
  obtain ⟨h1, _, _, _, _, _, _, h8, h9⟩ := hinv
  have hidx : (x.currentPage - 1).toNat = n := by
    rw [h1, hcp]
    exact Int.toNat_natCast n
  simp only [tempCount, hidx, h8]
  rw [List.filter_append, filter_temp_of_no_temp pg.shapes hfree]
  simp [h9]

/-- Witness for C6 on a concrete two-move rectangle gesture, instantiated
    at the intermediate state reached right after the pointer-down. -/
theorem C6_at_most_one_temp_shape_witness :
    tempCount (handleMouseDown rectToolState { x := 0, y := 0 }) ≤ 1 :=
  C6_at_most_one_temp_shape rectToolState { x := 0, y := 0 }
    [{ x := 1, y := 2 }, { x := 0, y := 0 }] 0 blankPage
    (Or.inr (Or.inl rfl)) (by decide) (by decide) rfl (by simp [blankPage])
    (handleMouseDown rectToolState { x := 0, y := 0 })
    (by simp [gestureStates, List.scanl_cons])

/-- Witness for C4 on a concrete one-move rectangle gesture with
    non-zero extent. -/
theorem C4_promotion_iff_nonzero_extent_witness :
    ∃ sh, ((handleMouseUp (gestureRun rectToolState { x := 0, y := 0 } [{ x := 2, y := 3 }])
          3 "0.5").1.pages[0]?).map Page.shapes =
        some (blankPage.shapes ++ [sh]) ∧
      sh.id = jsFreshId 3 "0.5" ∧ sh.id ≠ "temp" ∧ nonZeroExtent sh :=
  (C4_promotion_iff_nonzero_extent rectToolState { x := 0, y := 0 } [{ x := 2, y := 3 }]
      3 "0.5" 0 blankPage (Or.inr (Or.inl rfl)) (by decide) (by decide) rfl
      (by simp [blankPage])).2.2
    { x := 2, y := 3 } rfl (by decide)

end Hexlcc.Whiteboard

namespace Hexlcc.LegacyClient

open Hexlcc.Client

/-- C4 counterexample: the legacy client embedded in server.js promotes
    any existing temp shape on pointer-up without an extent test: a
    rectangle gesture whose only pointer-move ends at its start point
    commits a permanent shape of width 0 and height 0 with an id other
    than temp, although the claim requires a commit with identical start
    and end positions to yield no new permanent shape. -/
theorem C4_legacy_promotes_zero_extent :
    ((handleMouseUp
        ((handleMouseMove
          ((handleMouseDown rectToolState { x := 0, y := 0 }).1)
          { x := 0, y := 0 }).1)
        7).1.pages[0]?).map Page.shapes =
      some [{ id := "7", type := "rectangle", color := "#000000", strokeWidth := 5, x := 0, y := 0, width := 0, height := 0, points := none }] ∧
    ("7" : String) ≠ "temp" := by
  have h7 : Nat.repr 7 = "7" := rfl
  refine ⟨?_, by decide⟩
  simp [handleMouseDown, handleMouseMove, handleMouseUp, moveTempShape,
    rectToolState, baseState, blankPage, h7, List.find?, List.filter]

/-- C5: the legacy client embedded in server.js contradicts its own
    throttling comment, which says the period was increased to 16: a
    pointer-move that extends the single stroke of penMidState to
    flattened length 4 emits a draw-update although 4 is not a multiple
    of 16, because the code tests divisibility by 2 and stroke point
    lists always have even length, so every move emits. -/
theorem C5_legacy_throttle_emits_at_length_four :
    (handleMouseMove penMidState { x := 1, y := 1 }).2 =
      [(handleMouseMove penMidState { x := 1, y := 1 }).1.pages] ∧
    ((handleMouseMove penMidState { x := 1, y := 1 }).1.pages[0]?).map
        (fun pg => pg.lines.map (fun l => l.points)) = some [[0, 0, 1, 1]] ∧
    ¬((4 : Nat) % 16 = 0) := by
  refine ⟨rfl, rfl, by decide⟩

/-- C7 counterexample: the legacy client embedded in server.js assigns
    the new page the id pages.length + 1 rather than the previous maximum
    id plus one: adding a page to a document whose only page has id 2
    yields a second page that also has id 2, so the new id is not any
    existing page id plus one. -/
theorem C7_legacy_page_id_not_max_plus_one :
    (addPageClick pageTwoState).1.pages =
      [{ id := 2, lines := [], shapes := [] }, { id := 2, lines := [], shapes := [] }] ∧
    ∀ q ∈ pageTwoState.pages, ¬(((addPageClick pageTwoState).1.pages.getLast?).map Page.id =
      some (q.id + 1)) := by
  refine ⟨rfl, by decide⟩

end Hexlcc.LegacyClient

namespace Hexlcc.Client

theorem foldl_max_le (l : List Int) : ∀ a : Int,
    a ≤ l.foldl max a ∧ ∀ x ∈ l, x ≤ l.foldl max a := by
  induction l with
  | nil =>
    intro a
    exact ⟨le_refl a, by simp⟩
  | cons b bs ih =>
    intro a
    obtain ⟨h1, h2⟩ := ih (max a b)
    refine ⟨le_trans (le_max_left a b) h1, ?_⟩
    intro x hx
    rcases List.mem_cons.mp hx with rfl | hx2
    · exact le_trans (le_max_right a x) h1
    · exact h2 x hx2

theorem foldl_max_mem (l : List Int) : ∀ a : Int,
    l.foldl max a = a ∨ l.foldl max a ∈ l := by
  induction l with
  | nil =>
    intro a
    exact Or.inl rfl
  | cons b bs ih =>
    intro a
    rcases ih (max a b) with h | h
    · rcases max_choice a b with hm | hm
      · left
        rw [List.foldl_cons, h, hm]
      · right
        rw [List.foldl_cons, h, hm]
        exact List.mem_cons_self b bs
    · right
      rw [List.foldl_cons]
      exact List.mem_cons_of_mem b h

end Hexlcc.Client

namespace Hexlcc.Client

open Hexlcc.Whiteboard Hexlcc.LegacyClient

/-- C7 amended: when a client adds a page to a nonempty document, the
    document gains exactly one page with empty strokes and shapes and the
    updated pages are emitted; in the standalone client the new page id
    is the previous maximum page id plus one, while the legacy client
    embedded in server.js assigns the page count plus one instead, which
    agrees only when the existing ids are exactly 1..N. -/
theorem C7_page_add (st : ClientState) (hne : st.pages ≠ []) :
    ∃ newPage : Page,
      (Whiteboard.addPageClick st).1.pages = st.pages ++ [newPage] ∧
      (Whiteboard.addPageClick st).1.pages.length = st.pages.length + 1 ∧
      newPage.lines = [] ∧ newPage.shapes = [] ∧
      (∀ p ∈ st.pages, p.id + 1 ≤ newPage.id) ∧
      (∃ p ∈ st.pages, newPage.id = p.id + 1) ∧
      (Whiteboard.addPageClick st).2 = [st.pages ++ [newPage]] ∧
      ∃ legacyPage : Page,
        (LegacyClient.addPageClick st).1.pages = st.pages ++ [legacyPage] ∧
        legacyPage.id = (st.pages.length : Int) + 1 ∧
        legacyPage.lines = [] ∧ legacyPage.shapes = [] := by
  have hlen : 0 < st.pages.length := List.length_pos.mpr hne
  obtain ⟨hinit, hall⟩ := foldl_max_le (st.pages.map fun p => p.id)
    ((st.pages.map fun p => p.id).headD 0)
  have hhead : (st.pages.map fun p => p.id).headD 0 ∈ (st.pages.map fun p => p.id) := by
    cases hl : st.pages.map fun p => p.id with
    | nil =>
      rw [List.map_eq_nil_iff] at hl
      exact absurd hl hne
    | cons a as => simp [hl]
  have hmem : (st.pages.map fun p => p.id).foldl max
      ((st.pages.map fun p => p.id).headD 0) ∈ (st.pages.map fun p => p.id) := by
    rcases foldl_max_mem (st.pages.map fun p => p.id)
        ((st.pages.map fun p => p.id).headD 0) with h | h
    · rw [h]
      exact hhead
    · exact h
  refine ⟨{ id := ((st.pages.map fun p => p.id).foldl max ((st.pages.map fun p => p.id).headD 0) + 1), lines := [], shapes := [] }, ?_, ?_, rfl, rfl, ?_, ?_, ?_, ?_⟩
  · simp [Whiteboard.addPageClick, hlen]
  · simp [Whiteboard.addPageClick, hlen]
  · intro p hp
    have hle := hall p.id (List.mem_map_of_mem (fun p => p.id) hp)
    show p.id + 1 ≤ (st.pages.map fun p => p.id).foldl max ((st.pages.map fun p => p.id).headD 0) + 1
    omega
  · obtain ⟨p, hp, hpid⟩ := List.mem_map.mp hmem
    refine ⟨p, hp, ?_⟩
    show (st.pages.map fun p => p.id).foldl max ((st.pages.map fun p => p.id).headD 0) + 1 = p.id + 1
    rw [hpid]
  · simp [Whiteboard.addPageClick, hlen]
  · exact ⟨{ id := (st.pages.length : Int) + 1, lines := [], shapes := [] },
      by simp [LegacyClient.addPageClick], rfl, rfl, rfl⟩

/-- Witness for the amended C7 theorem on a one-page document whose page
    id is 2. -/
theorem C7_page_add_witness :
    ∃ newPage : Page,
      (Whiteboard.addPageClick pageTwoState).1.pages = pageTwoState.pages ++ [newPage] ∧
      (Whiteboard.addPageClick pageTwoState).1.pages.length = pageTwoState.pages.length + 1 ∧
      newPage.lines = [] ∧ newPage.shapes = [] ∧
      (∀ p ∈ pageTwoState.pages, p.id + 1 ≤ newPage.id) ∧
      (∃ p ∈ pageTwoState.pages, newPage.id = p.id + 1) ∧
      (Whiteboard.addPageClick pageTwoState).2 = [pageTwoState.pages ++ [newPage]] ∧
      ∃ legacyPage : Page,
        (LegacyClient.addPageClick pageTwoState).1.pages = pageTwoState.pages ++ [legacyPage] ∧
        legacyPage.id = (pageTwoState.pages.length : Int) + 1 ∧
        legacyPage.lines = [] ∧ legacyPage.shapes = [] :=
  C7_page_add pageTwoState (by decide)

end Hexlcc.Client

namespace Hexlcc.Client

open Hexlcc.Whiteboard Hexlcc.LegacyClient

/-- C8 amended: on pointer-down with the pen or eraser tool each client
    appends exactly one new stroke to the current page; the legacy client
    embedded in server.js starts it with a single coordinate pair, the
    pointer position, while the standalone client starts it with that
    position duplicated, giving two identical pairs that form a
    degenerate initial segment. -/
theorem C8_pen_down_single_stroke (st : ClientState) (pos : Pos) (n : Nat) (pg : Page)
    (htool : st.tool = "pen" ∨ st.tool = "eraser")
    (hcp : st.currentPage - 1 = (n : Int)) (hn : n < st.pages.length)
    (hpg : st.pages[n]? = some pg) :
    (∃ l : Stroke, (Whiteboard.handleMouseDown st pos).pages[n]? =
        some { pg with lines := pg.lines ++ [l] } ∧
      l.points = [pos.x, pos.y, pos.x, pos.y]) ∧
    (∀ (i : Nat) (pgi : Page), st.pages[i]? = some pgi → pgi.id = st.currentPage →
      ∃ l : Stroke, (LegacyClient.handleMouseDown st pos).1.pages[i]? =
        some { pgi with lines := pgi.lines ++ [l] } ∧
      l.points = [pos.x, pos.y]) := by
  have hb2 : ¬(st.currentPage < 1 ∨ (st.pages.length : Int) ≤ st.currentPage - 1) := by
    omega
  have hb3 : ¬((n : Int) < 0 ∨ st.pages.length ≤ n) := by
    omega
  have hpen : (st.tool == "pen" || st.tool == "eraser") = true := by
    rcases htool with h | h <;> rw [h] <;> rfl
  constructor
  · refine ⟨{ tool := st.tool, points := [pos.x, pos.y, pos.x, pos.y], color := (if st.tool == "eraser" then "#FFFFFF" else st.selectedColor), strokeWidth := st.selectedStrokeWidth, tension := 1/2, lineCap := "round", lineJoin := "round", globalCompositeOperation := some (if st.tool == "eraser" then "destination-out" else "source-over") }, ?_, rfl⟩
    simp [Whiteboard.handleMouseDown, hb2, hb3, hpen, jsMapWithIndex_getElem?, hpg, hcp]
  · intro i pgi hpgi hid
    refine ⟨{ tool := st.tool, points := [pos.x, pos.y], color := st.selectedColor, strokeWidth := st.selectedStrokeWidth, tension := 1/5, lineCap := "round", lineJoin := "round", globalCompositeOperation := none }, ?_, rfl⟩
    simp [LegacyClient.handleMouseDown, hpen, List.getElem?_map, hpgi, hid]

/-- C8 counterexample: in the standalone client the initial points of a
    new pen stroke are the pointer position duplicated, four flattened
    coordinates rather than the single coordinate pair the claim
    requires. -/
theorem C8_jsx_initial_stroke_two_pairs :
    ((Whiteboard.handleMouseDown baseState { x := 3, y := 4 }).pages[0]?).map
        (fun pg => pg.lines.map (fun l => l.points)) = some [[3, 4, 3, 4]] ∧
    ¬(([(3 : ℚ), 4, 3, 4] : List ℚ).length = ([(3 : ℚ), 4] : List ℚ).length) := by
  refine ⟨rfl, by decide⟩

/-- Witness for the amended C8 theorem at a concrete pointer-down. -/
theorem C8_pen_down_single_stroke_witness :
    (∃ l : Stroke, (Whiteboard.handleMouseDown baseState { x := 3, y := 4 }).pages[0]? =
        some { blankPage with lines := blankPage.lines ++ [l] } ∧
      l.points = [3, 4, 3, 4]) ∧
    (∃ l : Stroke, (LegacyClient.handleMouseDown baseState { x := 3, y := 4 }).1.pages[0]? =
        some { blankPage with lines := blankPage.lines ++ [l] } ∧
      l.points = [3, 4]) :=
  have h := C8_pen_down_single_stroke baseState { x := 3, y := 4 } 0 blankPage
    (Or.inl rfl) (by decide) (by decide) rfl
  ⟨h.1, h.2 0 blankPage rfl rfl⟩

end Hexlcc.Client
